import Mathlib

/-!
# Kanban board task store (`src/hooks/useTasks.js`)

A shallow embedding of the inbound-event handlers of the `useTasks` hook.
Every handler is a function from the previous hook state to the next one;
`none` stands for a `TypeError` thrown while the next state is computed.
The effect, its cleanup and the four commands give the next state together with
the calls they make on the socket; `useSocket` is the state of the connection
hook and the signals it listens to.  The submit path of `TaskModal` and the
save handlers of `KanbanBoard` give the callbacks and commands they invoke.
-/

namespace Kanban

/-- JavaScript values held in task fields and event payloads.  Primitives are
compared by value and `obj` is a reference to a heap object, compared by
address, so the derived equality is the strict equality `===` of the source
(numbers are integers here; `NaN` and array values are outside the model). -/
inductive Val where
  | undefined
  | null
  | bool (b : Bool)
  | num (n : Int)
  | str (s : String)
  | obj (addr : Nat)
  deriving DecidableEq, Repr

/-- The string a value is turned into when it is used as a property key, as in
`prev[column]` and `groupedTasks[task.column]`. -/
def Val.toPropertyKey : Val → String
  | .undefined => "undefined"
  | .null => "null"
  | .bool true => "true"
  | .bool false => "false"
  | .num n => toString n
  | .str s => s
  | .obj _ => "[object Object]"

/-- A plain object: its own properties in insertion order. -/
abbrev Obj (α : Type) := List (String × α)

/-- A task is a plain object of values. -/
abbrev Task := Obj Val

/-- The `tasks` object of the hook: own keys mapped to arrays of tasks. -/
abbrev TaskMap := Obj (List Task)

/-- Field read `task.k`: the own property, `undefined` when there is none. -/
def Task.get (t : Task) (k : String) : Val :=
  match t.lookup k with
  | some v => v
  | none => .undefined

/-- The `id` field of a task, `task.id`. -/
def Task.id (t : Task) : Val := t.get "id"

/-- Property definition `o[k] = v` on a fresh copy: an existing key keeps its
place and takes the new value, a new key is added at the end. -/
def setProp {α : Type} (o : Obj α) (k : String) (v : α) : Obj α :=
  match o.lookup k with
  | some _ => o.map (fun p => if p.1 = k then (p.1, v) else p)
  | none => o ++ [(k, v)]

/-- Object spread `{ ...task, ...updates }`: the properties of `updates` are
defined one after the other on a copy of `task`. -/
def merge (task updates : Task) : Task :=
  updates.foldl (fun acc p => setProp acc p.1 p.2) task

/-- Names every plain object inherits from `Object.prototype`. -/
def objectPrototypeKeys : List String :=
  ["constructor", "__defineGetter__", "__defineSetter__", "hasOwnProperty",
   "__lookupGetter__", "__lookupSetter__", "isPrototypeOf", "propertyIsEnumerable",
   "toString", "valueOf", "__proto__", "toLocaleString"]

/-- What the property read `tasks[k]` gives. -/
inductive Lookup where
  | arr (xs : List Task)
  | inherited
  | undefined
  deriving DecidableEq, Repr

/-- Property read `o[k]` on the tasks object: an own key gives its array, a
name of `Object.prototype` gives the inherited member (a function or the
prototype object: truthy, not iterable, without `push`, `map`, `filter` or
`find`), any other key gives `undefined`. -/
def getProp (o : TaskMap) (k : String) : Lookup :=
  match o.lookup k with
  | some xs => .arr xs
  | none => if k ∈ objectPrototypeKeys then .inherited else .undefined

/-- The state of the hook: the `tasks` object and the `loading` flag. -/
structure State where
  tasks : TaskMap
  loading : Bool
  deriving DecidableEq, Repr

/-- The object literal with the three columns, each holding the given array. -/
def board (todo inProgress done : List Task) : TaskMap :=
  [("To Do", todo), ("In Progress", inProgress), ("Done", done)]

/-- The initial state of `useTasks`: three empty columns, `loading` false. -/
def initialState : State := ⟨board [] [] [], false⟩

/-- One turn of the `forEach` of `handleSyncTasks`: when `groupedTasks[task.column]`
is truthy the task is pushed on it. -/
def pushGrouped (groupedTasks : TaskMap) (task : Task) : Option TaskMap :=
  match getProp groupedTasks (task.get "column").toPropertyKey with
  | .arr xs => some (setProp groupedTasks (task.get "column").toPropertyKey (xs ++ [task]))
  | .inherited => none
  | .undefined => some groupedTasks

/-- The loop `allTasks.forEach(...)` of `handleSyncTasks`. -/
def groupAll : TaskMap → List Task → Option TaskMap
  | groupedTasks, [] => some groupedTasks
  | groupedTasks, task :: rest =>
    match pushGrouped groupedTasks task with
    | some g => groupAll g rest
    | none => none

/-- Handler of `sync:tasks`. -/
def handleSyncTasks (_prev : State) (allTasks : List Task) : Option State :=
  match groupAll (board [] [] []) allTasks with
  | some groupedTasks => some ⟨groupedTasks, false⟩
  | none => none

/-- Handler of `task:created`. -/
def handleTaskCreated (prev : State) (task : Task) (column : Val) : Option State :=
  match getProp prev.tasks column.toPropertyKey with
  | .arr xs => some ⟨setProp prev.tasks column.toPropertyKey (xs ++ [task]), false⟩
  | _ => none

/-- Handler of `task:updated`. -/
def handleTaskUpdated (prev : State) (taskId : Val) (updates : Task) (column : Val) :
    Option State :=
  match getProp prev.tasks column.toPropertyKey with
  | .arr xs =>
    some ⟨setProp prev.tasks column.toPropertyKey
      (xs.map (fun task => if task.id = taskId then merge task updates else task)),
      prev.loading⟩
  | _ => none

/-- Handler of `task:moved`. -/
def handleTaskMoved (prev : State) (taskId fromColumn toColumn : Val) : Option State :=
  match getProp prev.tasks fromColumn.toPropertyKey with
  | .arr src =>
    match src.find? (fun t => decide (t.id = taskId)) with
    | none => some prev
    | some task =>
      match getProp prev.tasks toColumn.toPropertyKey with
      | .arr dst =>
        some ⟨setProp
          (setProp prev.tasks fromColumn.toPropertyKey
            (src.filter (fun t => decide (t.id ≠ taskId))))
          toColumn.toPropertyKey (dst ++ [task]), prev.loading⟩
      | _ => none
  | _ => none

/-- Handler of `task:deleted`. -/
def handleTaskDeleted (prev : State) (taskId column : Val) : Option State :=
  match getProp prev.tasks column.toPropertyKey with
  | .arr xs =>
    some ⟨setProp prev.tasks column.toPropertyKey
      (xs.filter (fun task => decide (task.id ≠ taskId))), prev.loading⟩
  | _ => none

/-- The inbound events `useTasks` subscribes to, with their payloads. -/
inductive Event where
  | syncTasks (allTasks : List Task)
  | taskCreated (task : Task) (column : Val)
  | taskUpdated (taskId : Val) (updates : Task) (column : Val)
  | taskMoved (taskId fromColumn toColumn : Val)
  | taskDeleted (taskId column : Val)
  deriving DecidableEq, Repr

/-- The handler registered for each event. -/
def apply (s : State) : Event → Option State
  | .syncTasks allTasks => handleSyncTasks s allTasks
  | .taskCreated task column => handleTaskCreated s task column
  | .taskUpdated taskId updates column => handleTaskUpdated s taskId updates column
  | .taskMoved taskId fromColumn toColumn => handleTaskMoved s taskId fromColumn toColumn
  | .taskDeleted taskId column => handleTaskDeleted s taskId column

/-- Events applied in order; a handler that throws ends the run with `none`. -/
def run : State → List Event → Option State
  | s, [] => some s
  | s, e :: es =>
    match apply s e with
    | some s' => run s' es
    | none => none

/-- The three fixed stages. -/
inductive Stage where
  | todo
  | inProgress
  | done
  deriving DecidableEq, Repr, Fintype

/-- The column name of a stage. -/
def Stage.name : Stage → String
  | .todo => "To Do"
  | .inProgress => "In Progress"
  | .done => "Done"

/-- A stage as it is carried in an event payload. -/
def Stage.val (c : Stage) : Val := .str c.name

/-- The sequence of a stage, `tasks[c]`; empty when the key is missing. -/
def seq (m : TaskMap) (c : Stage) : List Task :=
  match m.lookup c.name with
  | some xs => xs
  | none => []

/-- Total of `Progresschart.jsx`:
`Object.values(tasks).reduce((sum, col) => sum + col.length, 0)`. -/
def totalTasks (m : TaskMap) : Nat :=
  (m.map (fun p => p.2)).foldl (fun sum col => sum + col.length) 0

/-- The property key under which `handleSyncTasks` files a task,
`task.column` used as a key. -/
def Task.columnKey (t : Task) : String := (t.get "column").toPropertyKey

/-- The task declares the stage: its `column` names it. -/
def declares (st : Stage) (t : Task) : Bool := t.columnKey == st.name

/-- No duplication: every task id occurs in the sequence of at most one stage. -/
def NoDuplication (m : TaskMap) : Prop :=
  ∀ st st' : Stage, st ≠ st' → ∀ t ∈ seq m st, ∀ t' ∈ seq m st', t.id ≠ t'.id

instance (m : TaskMap) : Decidable (NoDuplication m) := by
  unfold NoDuplication
  infer_instance

/-- An event that names only the fixed stages and brings no id into a second
stage of the task mapping `m`: a sync list declares no id in two stages (and no
inherited name as a stage), a created task's id is in no other stage, an update
does not define `id`. -/
def Event.keepsIds (m : TaskMap) : Event → Prop
  | .syncTasks allTasks =>
    (∀ t ∈ allTasks, t.columnKey ∉ objectPrototypeKeys) ∧
    ∀ t ∈ allTasks, ∀ t' ∈ allTasks, t.id = t'.id → t.columnKey = t'.columnKey
  | .taskCreated task column =>
    ∃ st : Stage, column = st.val ∧ ∀ st', st' ≠ st → ∀ t' ∈ seq m st', t'.id ≠ task.id
  | .taskUpdated _ updates column => (∃ st : Stage, column = st.val) ∧ updates.lookup "id" = none
  | .taskMoved _ fromColumn toColumn =>
    (∃ st : Stage, fromColumn = st.val) ∧ ∃ st : Stage, toColumn = st.val
  | .taskDeleted _ column => ∃ st : Stage, column = st.val

instance (m : TaskMap) (e : Event) : Decidable (e.keepsIds m) := by
  cases e <;> unfold Event.keepsIds <;> infer_instance

/-- Every event of the list keeps ids apart in the state it is applied to. -/
def Admissible : State → List Event → Prop
  | _, [] => True
  | s, e :: es =>
    e.keepsIds s.tasks ∧
      match apply s e with
      | some s' => Admissible s' es
      | none => True

instance decAdmissible : (es : List Event) → (s : State) → Decidable (Admissible s es)
  | [], _ => isTrue trivial
  | e :: es, s =>
    if hk : e.keepsIds s.tasks then
      match h : apply s e with
      | some s' =>
        match decAdmissible es s' with
        | isTrue hr => isTrue ⟨hk, by rw [h]; exact hr⟩
        | isFalse hr => isFalse (fun H => hr (by have h2 := H.2; rw [h] at h2; exact h2))
      | none => isTrue ⟨hk, by rw [h]; trivial⟩
    else isFalse (fun H => hk H.1)

/-- The column names, `COLUMNS` of `KanbanBoard.jsx`. -/
def COLUMNS : List String := ["To Do", "In Progress", "Done"]

/-- The own keys of the tasks object, in order. -/
def keys (m : TaskMap) : List String := m.map Prod.fst

/-- The state once the `sync:tasks` listener has run (lines 18-36): when the
`forEach` throws, neither `setTasks` nor `setLoading(false)` has been reached
and the state is the previous one. -/
def afterSyncTasks (prev : State) (allTasks : List Task) : State :=
  match handleSyncTasks prev allTasks with
  | some s => s
  | none => prev

/-! ### The socket side of `useTasks`: effect, cleanup and commands -/

/-- The socket object handed to `useTasks`; only whether it is there, and which
one it is, matters to the hook. -/
structure Socket where
  id : Nat
  deriving DecidableEq, Repr

/-- The five listeners one run of the `useTasks` effect creates. -/
inductive Handler where
  | handleSyncTasks
  | handleTaskCreated
  | handleTaskUpdated
  | handleTaskMoved
  | handleTaskDeleted
  deriving DecidableEq, Repr

/-- A property of an emitted payload: a plain value, or an object such as
`taskData` and `updates`. -/
inductive Arg where
  | val (v : Val)
  | object (o : Task)
  deriving DecidableEq, Repr

/-- A call the hook makes on its socket: `socket.on(event, handler)`,
`socket.off(event, handler)` or `socket.emit(event, payload)`; the payload is
`none` when `emit` is called with the event name alone. -/
inductive SocketCall where
  | on (event : String) (handler : Handler)
  | off (event : String) (handler : Handler)
  | emit (event : String) (payload : Option (Obj Arg))
  deriving DecidableEq, Repr

/-- The effect of `useTasks` (`useEffect`, lines 12-96): nothing with a null
socket; otherwise the five listeners are registered, `loading` is set and the
initial sync is requested.  Gives the next state and the calls made. -/
def useTasksEffect (socket : Option Socket) (s : State) : State × List SocketCall :=
  match socket with
  | none => (s, [])
  | some _ =>
    (⟨s.tasks, true⟩,
      [.on "sync:tasks" .handleSyncTasks,
       .on "task:created" .handleTaskCreated,
       .on "task:updated" .handleTaskUpdated,
       .on "task:moved" .handleTaskMoved,
       .on "task:deleted" .handleTaskDeleted,
       .emit "sync:tasks" none])

/-- The cleanup the effect returns (lines 99-106); with a null socket the
effect returned before making one. -/
def useTasksCleanup (socket : Option Socket) : List SocketCall :=
  match socket with
  | none => []
  | some _ =>
    [.off "sync:tasks" .handleSyncTasks,
     .off "task:created" .handleTaskCreated,
     .off "task:updated" .handleTaskUpdated,
     .off "task:moved" .handleTaskMoved,
     .off "task:deleted" .handleTaskDeleted]

/-- Command `createTask(taskData, column)`. -/
def createTask (socket : Option Socket) (s : State) (taskData : Task) (column : Val) :
    State × List SocketCall :=
  match socket with
  | none => (s, [])
  | some _ =>
    (⟨s.tasks, true⟩,
      [.emit "task:create" (some [("task", .object taskData), ("column", .val column)])])

/-- Command `updateTask(taskId, updates, column)`. -/
def updateTask (socket : Option Socket) (s : State) (taskId : Val) (updates : Task)
    (column : Val) : State × List SocketCall :=
  match socket with
  | none => (s, [])
  | some _ =>
    (s, [.emit "task:update"
      (some [("taskId", .val taskId), ("updates", .object updates), ("column", .val column)])])

/-- Command `moveTask(taskId, fromColumn, toColumn)`. -/
def moveTask (socket : Option Socket) (s : State) (taskId fromColumn toColumn : Val) :
    State × List SocketCall :=
  match socket with
  | none => (s, [])
  | some _ =>
    (s, [.emit "task:move"
      (some [("taskId", .val taskId), ("fromColumn", .val fromColumn),
        ("toColumn", .val toColumn)])])

/-- Command `deleteTask(taskId, column)`. -/
def deleteTask (socket : Option Socket) (s : State) (taskId column : Val) :
    State × List SocketCall :=
  match socket with
  | none => (s, [])
  | some _ =>
    (s, [.emit "task:delete" (some [("taskId", .val taskId), ("column", .val column)])])

/-- The outbound messages among the calls, in order. -/
def emitted : List SocketCall → List (String × Option (Obj Arg))
  | [] => []
  | .emit event payload :: cs => (event, payload) :: emitted cs
  | _ :: cs => emitted cs

/-- The `(event, handler)` pairs registered by the calls, in order. -/
def registered : List SocketCall → List (String × Handler)
  | [] => []
  | .on event handler :: cs => (event, handler) :: registered cs
  | _ :: cs => registered cs

/-- The `(event, handler)` pairs deregistered by the calls, in order. -/
def deregistered : List SocketCall → List (String × Handler)
  | [] => []
  | .off event handler :: cs => (event, handler) :: deregistered cs
  | _ :: cs => deregistered cs

/-- One subscription of the pair taken out of the table: the first entry equal
to it, if there is one. -/
def removeFirst (p : String × Handler) : List (String × Handler) → List (String × Handler)
  | [] => []
  | q :: qs => if q = p then qs else q :: removeFirst p qs

/-- Modelled from the spec: the subscription table of the event channel (the
socket.io client is not part of the sources).  `on` subscribes the pair, `off`
takes one subscription of the pair away, `emit` leaves the table alone. -/
def listeners : List (String × Handler) → List SocketCall → List (String × Handler)
  | table, [] => table
  | table, .on event handler :: cs => listeners (table ++ [(event, handler)]) cs
  | table, .off event handler :: cs => listeners (removeFirst (event, handler) table) cs
  | table, .emit _ _ :: cs => listeners table cs

/-- A mounted `useTasks`: its state and the calls made on its socket so far. -/
structure Hook where
  state : State
  calls : List SocketCall
  deriving DecidableEq, Repr

/-- First render followed by the effect. -/
def Hook.mount (socket : Option Socket) : Hook :=
  ⟨(useTasksEffect socket initialState).1, (useTasksEffect socket initialState).2⟩

/-- An inbound event reaches its listener: the state moves on, the listeners
make no call on the socket. -/
def Hook.receive (h : Hook) (e : Event) : Option Hook :=
  match apply h.state e with
  | some s => some ⟨s, h.calls⟩
  | none => none

/-- Inbound events delivered in order. -/
def Hook.receiveAll : Hook → List Event → Option Hook
  | h, [] => some h
  | h, e :: es =>
    match h.receive e with
    | some h' => Hook.receiveAll h' es
    | none => none

/-! ### `useSocket` (`src/hooks/useSocket.js`) -/

/-- Truthiness of a value, as `||` tests it. -/
def Val.truthy : Val → Bool
  | .undefined => false
  | .null => false
  | .bool b => b
  | .num n => decide (n ≠ 0)
  | .str s => decide (s ≠ "")
  | .obj _ => true

/-- The state of `useSocket`: the ref, the two state variables, and the
`socket` the last render returned (`socketRef.current` as read then). -/
structure SocketHook where
  socketRef : Option Socket
  isConnected : Bool
  error : Val
  socket : Option Socket
  deriving DecidableEq, Repr

/-- First render: `useRef(null)`, `useState(false)`, `useState(null)`. -/
def SocketHook.initial : SocketHook := ⟨none, false, .null, none⟩

/-- The effect of `useSocket` creates the socket and stores it in the ref;
nothing is rendered again by that. -/
def SocketHook.mount (h : SocketHook) (sock : Socket) : SocketHook :=
  { h with socketRef := some sock }

/-- The signals `useSocket` listens to; `err` is the object passed along. -/
inductive Signal where
  | connect
  | disconnect (reason : Val)
  | connect_error (err : Task)
  | error (err : Task)
  deriving DecidableEq, Repr

/-- The state setters a signal's listener calls. -/
def SocketHook.set (h : SocketHook) : Signal → SocketHook
  | .connect => { h with isConnected := true, error := .null }
  | .disconnect _ => { h with isConnected := false }
  | .connect_error err => { h with isConnected := false, error := err.get "message" }
  | .error err =>
    { h with error :=
        if (err.get "message").truthy then err.get "message"
        else .str "Socket error occurred" }

/-- A signal is handled: the setters run, and when a state variable changed the
component renders again, which reads `socketRef.current` anew. -/
def SocketHook.signal (h : SocketHook) (sig : Signal) : SocketHook :=
  if (h.set sig).isConnected = h.isConnected ∧ (h.set sig).error = h.error then h
  else { h.set sig with socket := h.socketRef }

/-- Signals handled in order. -/
def SocketHook.signals : SocketHook → List Signal → SocketHook
  | h, [] => h
  | h, sig :: sigs => SocketHook.signals (h.signal sig) sigs

/-- A call `useSocket` makes on the socket it created: `on(event, listener)`
with one of its four arrow functions, `off(event, ...)`, or `disconnect()`. -/
inductive ConnectionCall where
  | on (event : String)
  | off (event : String)
  | disconnect
  deriving DecidableEq, Repr

/-- The effect of `useSocket` (lines 12-44): the socket is created and stored
in the ref, then the four listeners are registered on it. -/
def useSocketEffect (h : SocketHook) (sock : Socket) : SocketHook × List ConnectionCall :=
  (h.mount sock, [.on "connect", .on "disconnect", .on "connect_error", .on "error"])

/-- The cleanup of `useSocket` (lines 47-53): with a socket in the ref,
`disconnect()` is called on it and the ref is set to null. -/
def useSocketCleanup (h : SocketHook) : SocketHook × List ConnectionCall :=
  match h.socketRef with
  | some _ => ({ h with socketRef := none }, [.disconnect])
  | none => (h, [])

/-- The events the calls deregister a listener of, in order. -/
def offEvents : List ConnectionCall → List String
  | [] => []
  | .off event :: cs => event :: offEvents cs
  | _ :: cs => offEvents cs

/-- The events the calls register a listener for, in order. -/
def onEvents : List ConnectionCall → List String
  | [] => []
  | .on event :: cs => event :: onEvents cs
  | _ :: cs => onEvents cs

/-- The signal is one of `connect`, `disconnect` and `connect_error`. -/
def Signal.isLifecycle : Signal → Bool
  | .error _ => false
  | _ => true

/-- Every task id occurs at most once over the three stages together. -/
def UniqueIds (m : TaskMap) : Prop :=
  ((seq m .todo ++ seq m .inProgress ++ seq m .done).map Task.id).Nodup

instance (m : TaskMap) : Decidable (UniqueIds m) := by
  unfold UniqueIds
  infer_instance

/-! ### `TaskModal` (`src/components/Taskmodal.jsx`) and the handlers of `KanbanBoard` -/

/-- The `length` of a string as JavaScript counts it, in UTF-16 code units: a
character beyond U+FFFF counts twice. -/
def jsLength (s : String) : Nat :=
  (s.data.map (fun c => if c.toNat < 65536 then 1 else 2)).sum

/-- The characters `String.prototype.trim` strips: white space and line
terminators. -/
def isWhiteSpace (c : Char) : Bool :=
  decide (c.toNat ∈ [9, 10, 11, 12, 13, 32, 160, 5760, 8232, 8233, 8239, 8287, 12288, 65279])
    || (decide (8192 ≤ c.toNat) && decide (c.toNat ≤ 8202))

/-- The string `s.trim()`. -/
def trim (s : String) : String :=
  ⟨((s.data.dropWhile isWhiteSpace).reverse.dropWhile isWhiteSpace).reverse⟩

/-- The form state `formData` of the modal. -/
structure FormData where
  title : String
  description : String
  priority : Val
  category : Val
  attachments : Val
  deriving DecidableEq, Repr

/-- The object `formData` as it is spread into `taskData`. -/
def FormData.toObj (formData : FormData) : Task :=
  [("title", .str formData.title), ("description", .str formData.description),
   ("priority", formData.priority), ("category", formData.category),
   ("attachments", formData.attachments)]

/-- The object `newErrors` built by `validateForm`. -/
def newErrors (formData : FormData) : Obj String :=
  let titleErrors : Obj String :=
    if trim formData.title = "" then [("title", "Title is required")]
    else if jsLength formData.title > 100 then
      [("title", "Title must be less than 100 characters")]
    else []
  if jsLength formData.description > 500 then
    setProp titleErrors "description" "Description must be less than 500 characters"
  else titleErrors

/-- The result of `validateForm`: `Object.keys(newErrors).length === 0`. -/
def validateForm (formData : FormData) : Bool :=
  decide ((newErrors formData).length = 0)

/-- What the environment supplies to `handleSubmit`: the generated id
(``task-${Date.now()}-...``) and the two `new Date().toISOString()` readings. -/
structure SubmitEnv where
  generatedId : String
  createdAtNow : String
  updatedAtNow : String
  deriving DecidableEq, Repr

/-- The expression `task?.k || fallback`. -/
def fieldOr (task : Option Task) (k : String) (fallback : Val) : Val :=
  match task with
  | none => fallback
  | some t => if (t.get k).truthy then t.get k else fallback

/-- The object `taskData` built by `handleSubmit`. -/
def taskDataOf (formData : FormData) (task : Option Task) (env : SubmitEnv) : Task :=
  merge formData.toObj
    [("id", fieldOr task "id" (.str env.generatedId)),
     ("createdAt", fieldOr task "createdAt" (.str env.createdAtNow)),
     ("updatedAt", .str env.updatedAtNow)]

/-- A callback the modal invokes on submit. -/
inductive ModalCall where
  | onSave (taskData : Task) (column : Val)
  | onClose
  deriving DecidableEq, Repr

/-- The submit handler `handleSubmit` of the modal, for its props `task` and
`column`: the callbacks it invokes, in order. -/
def handleSubmit (formData : FormData) (task : Option Task) (column : Val)
    (env : SubmitEnv) : List ModalCall :=
  if validateForm formData then
    [.onSave (taskDataOf formData task env) column, .onClose]
  else []

/-- The modal state of `KanbanBoard`. -/
structure BoardUi where
  isModalOpen : Bool
  currentTask : Option Task
  currentColumn : Val
  deriving DecidableEq, Repr

/-- The card object of `Column.jsx`, `{ ...task, column: title }`. -/
def cardTask (task : Task) (title : String) : Task :=
  merge task [("column", .str title)]

/-- Handler `handleAddTask(column)`. -/
def handleAddTask (column : Val) : BoardUi := ⟨true, none, column⟩

/-- Handler `handleEditTask(task)`. -/
def handleEditTask (task : Task) : BoardUi := ⟨true, some task, task.get "column"⟩

/-- A command `KanbanBoard` invokes on `useTasks`. -/
inductive BoardCall where
  | updateTask (taskId : Val) (updates : Task) (column : Val)
  | createTask (taskData : Task) (column : Val)
  deriving DecidableEq, Repr

/-- Handler `handleSaveTask(taskData, column)`. -/
def handleSaveTask (ui : BoardUi) (taskData : Task) (column : Val) : List BoardCall :=
  match ui.currentTask with
  | some _ => [.updateTask (taskData.get "id") taskData ui.currentColumn]
  | none => [.createTask taskData column]

/-- The modal is rendered with `task = currentTask`, `column = currentColumn`
and `onSave = handleSaveTask`: the commands a submit of the form leads to. -/
def submitCommands (ui : BoardUi) (formData : FormData) (env : SubmitEnv) : List BoardCall :=
  (handleSubmit formData ui.currentTask ui.currentColumn env).flatMap fun call =>
    match call with
    | .onSave taskData column => handleSaveTask ui taskData column
    | .onClose => []

/-! ### The statistics of `ProgressChart` (`src/components/Progresschart.jsx`) -/

/-- A non-negative binary64 number, held as `mant * 2 ^ exp`. -/
structure Double where
  mant : Nat
  exp : Int
  deriving DecidableEq, Repr

/-- Halving `n` until it is below 2, at most `fuel` times. -/
def log2Aux : Nat → Nat → Nat
  | 0, _ => 0
  | fuel + 1, n => if 2 ≤ n then log2Aux fuel (n / 2) + 1 else 0

/-- The position of the leading bit of `n`, `⌊log₂ n⌋`. -/
def log2 (n : Nat) : Nat := log2Aux n n

/-- The binary exponent of the quotient `a / b` of two positive integers: the
`e` with `2 ^ e ≤ a / b < 2 ^ (e + 1)`. -/
def exponent (a b : Nat) : Int :=
  if b * 2 ^ ((log2 a : Int) - (log2 b : Int)).toNat
      ≤ a * 2 ^ ((log2 b : Int) - (log2 a : Int)).toNat then
    (log2 a : Int) - (log2 b : Int)
  else (log2 a : Int) - (log2 b : Int) - 1

/-- The integer nearest to `n / d`, a half going to the even neighbour. -/
def roundHalfEven (n d : Nat) : Nat :=
  if 2 * (n % d) < d then n / d
  else if d < 2 * (n % d) then n / d + 1
  else if (n / d) % 2 = 0 then n / d else n / d + 1

/-- The binary64 number nearest to the quotient `a / b` (round to nearest, ties
to even, 53 significant bits), as every arithmetic operation on numbers gives
it; quotients far outside the range of the lengths of arrays (subnormal or
infinite results) are not distinguished. -/
def binary64 (a b : Nat) : Double :=
  if a = 0 then ⟨0, 0⟩
  else
    ⟨roundHalfEven (a * 2 ^ (52 - exponent a b).toNat) (b * 2 ^ (exponent a b - 52).toNat),
      exponent a b - 52⟩

/-- The division `doneTasks / totalTasks` of two integers. -/
def divide (x y : Nat) : Double := binary64 x y

/-- The multiplication `(...) * 100`. -/
def times100 (y : Double) : Double :=
  binary64 (y.mant * 100 * 2 ^ y.exp.toNat) (2 ^ (-y.exp).toNat)

/-- The string `x.toFixed(1)`, held as its number of tenths (`287` for `28.7`):
the integer `n` with `n / 10` nearest to `x`, the larger one of two. -/
def toFixed1 (x : Double) : Nat :=
  (2 * (10 * x.mant * 2 ^ x.exp.toNat) + 2 ^ (-x.exp).toNat) / (2 * 2 ^ (-x.exp).toNat)

/-- Statistic `doneTasks`: `tasks['Done']?.length || 0`. -/
def doneTasks (m : TaskMap) : Nat :=
  match m.lookup "Done" with
  | some col => col.length
  | none => 0

/-- What `{completionRate}%` renders before the percent sign: the number `0`,
or the string of `toFixed(1)` held as its number of tenths. -/
inductive Rate where
  | zero
  | fixed (tenths : Nat)
  deriving DecidableEq, Repr

/-- Statistic `completionRate`:
`totalTasks > 0 ? ((doneTasks / totalTasks) * 100).toFixed(1) : 0`. -/
def completionRate (m : TaskMap) : Rate :=
  if 0 < totalTasks m then
    .fixed (toFixed1 (times100 (divide (doneTasks m) (totalTasks m))))
  else .zero

/-- The exact value `100 * done / total` rounded to one decimal place, a half
going up, as its number of tenths. -/
def exactTenths (done total : Nat) : Nat := (2000 * done + total) / (2 * total)

/-! ## Reading and writing the three columns -/

theorem toPropertyKey_val (c : Stage) : c.val.toPropertyKey = c.name := rfl

theorem seq_board (a b c : List Task) (st : Stage) :
    seq (board a b c) st = match st with
      | .todo => a
      | .inProgress => b
      | .done => c := by
  cases st <;> rfl

theorem getProp_board (a b c : List Task) (st : Stage) :
    getProp (board a b c) st.name = .arr (seq (board a b c) st) := by
  cases st <;> rfl

theorem setProp_board (a b c x : List Task) (st : Stage) :
    setProp (board a b c) st.name x = match st with
      | .todo => board x b c
      | .inProgress => board a x c
      | .done => board a b x := by
  cases st <;> simp [setProp, board, Stage.name, List.lookup]

/-- C5: `task:created` with one of the three stages appends the task at the end
of that stage's sequence and leaves the other two sequences as they were,
whether or not the id is already on the board. -/
theorem handleTaskCreated_appends (a b c : List Task) (l : Bool) (t : Task) (st : Stage) :
    ∃ s', handleTaskCreated ⟨board a b c, l⟩ t st.val = some s' ∧
      seq s'.tasks st = seq (board a b c) st ++ [t] ∧
      ∀ st', st' ≠ st → seq s'.tasks st' = seq (board a b c) st' := by
  simp only [handleTaskCreated, toPropertyKey_val, getProp_board, setProp_board]
  cases st
  all_goals
    refine ⟨_, rfl, ?_, ?_⟩
    · simp [seq_board]
    · intro st' h
      cases st' <;> simp_all [seq_board]

/-- C7: `task:updated` for an id that no task of the named stage carries gives
back the state it was applied to: every sequence, and the loading flag, is the
one before, and nothing is thrown. -/
theorem handleTaskUpdated_miss (a b c : List Task) (l : Bool) (i : Val) (u : Task)
    (st : Stage) (h : ∀ t ∈ seq (board a b c) st, t.id ≠ i) :
    handleTaskUpdated ⟨board a b c, l⟩ i u st.val = some ⟨board a b c, l⟩ := by
  have hmap : (seq (board a b c) st).map
      (fun task => if task.id = i then merge task u else task) = seq (board a b c) st := by
    conv_rhs => rw [← List.map_id (seq (board a b c) st)]
    apply List.map_congr_left
    intro t ht
    simp [h t ht]
  simp only [handleTaskUpdated, toPropertyKey_val, getProp_board, hmap, setProp_board]
  cases st <;> simp [seq_board]

theorem handleTaskUpdated_miss_witness :
    handleTaskUpdated ⟨board [[("id", .str "t1")]] [] [], true⟩ (.str "t2")
      [("title", .str "x")] Stage.todo.val = some ⟨board [[("id", .str "t1")]] [] [], true⟩ :=
  handleTaskUpdated_miss [[("id", .str "t1")]] [] [] true (.str "t2") [("title", .str "x")]
    .todo (by decide)

/-- C10: `task:moved` for an id that no task of the source stage carries gives
back the previous state itself, whatever the destination stage and whether or
not the id is present in another stage. -/
theorem handleTaskMoved_miss (a b c : List Task) (l : Bool) (i : Val) (A B : Stage)
    (h : ∀ t ∈ seq (board a b c) A, t.id ≠ i) :
    handleTaskMoved ⟨board a b c, l⟩ i A.val B.val = some ⟨board a b c, l⟩ := by
  have hfind : (seq (board a b c) A).find? (fun t => decide (t.id = i)) = none := by
    rw [List.find?_eq_none]
    intro t ht
    simp [h t ht]
  simp only [handleTaskMoved, toPropertyKey_val, getProp_board, hfind]

theorem handleTaskMoved_miss_witness :
    handleTaskMoved ⟨board [] [[("id", .str "ghost")]] [], false⟩ (.str "ghost")
        Stage.todo.val Stage.done.val
      = some ⟨board [] [[("id", .str "ghost")]] [], false⟩ :=
  handleTaskMoved_miss [] [[("id", .str "ghost")]] [] false (.str "ghost") .todo .done
    (by decide)

/-- What `task:moved` computes on a board when the source stage holds the id:
the first match goes to the end of the destination, read from the old board. -/
theorem handleTaskMoved_found (a b c : List Task) (l : Bool) (i : Val) (A B : Stage)
    (task : Task)
    (hfind : (seq (board a b c) A).find? (fun t => decide (t.id = i)) = some task) :
    handleTaskMoved ⟨board a b c, l⟩ i A.val B.val =
      some ⟨setProp (setProp (board a b c) A.name
          ((seq (board a b c) A).filter (fun t => decide (t.id ≠ i))))
        B.name (seq (board a b c) B ++ [task]), l⟩ := by
  simp only [handleTaskMoved, toPropertyKey_val, getProp_board, hfind]

theorem find?_id_isSome (xs : List Task) (i : Val) (h : ∃ t ∈ xs, t.id = i) :
    ∃ task, xs.find? (fun t => decide (t.id = i)) = some task := by
  cases hf : xs.find? (fun t => decide (t.id = i)) with
  | some task => exact ⟨task, rfl⟩
  | none =>
    rw [List.find?_eq_none] at hf
    obtain ⟨t, ht, hi⟩ := h
    exact absurd (by simpa using hi) (hf t ht)

/-- C9: `task:moved` between two different stages, the source holding the id:
the source keeps, in their order, the entries with another id; the destination
gets, after its old entries, the first entry of the source with that id; the
third stage is unchanged. -/
theorem handleTaskMoved_moves (a b c : List Task) (l : Bool) (i : Val) (A B : Stage)
    (hAB : A ≠ B) (h : ∃ t ∈ seq (board a b c) A, t.id = i) :
    ∃ s' task pre post,
      handleTaskMoved ⟨board a b c, l⟩ i A.val B.val = some s' ∧
      seq (board a b c) A = pre ++ task :: post ∧ task.id = i ∧ (∀ x ∈ pre, x.id ≠ i) ∧
      seq s'.tasks A = (seq (board a b c) A).filter (fun t => decide (t.id ≠ i)) ∧
      seq s'.tasks B = seq (board a b c) B ++ [task] ∧
      ∀ C, C ≠ A → C ≠ B → seq s'.tasks C = seq (board a b c) C := by
  obtain ⟨task, hfind⟩ := find?_id_isSome _ i h
  obtain ⟨hp, pre, post, hsplit, hpre⟩ := List.find?_eq_some.mp hfind
  refine ⟨_, task, pre, post, handleTaskMoved_found a b c l i A B task hfind, hsplit,
    by simpa using hp, ?_, ?_, ?_, ?_⟩
  · intro x hx
    simpa using hpre x hx
  · cases A <;> cases B <;> simp_all [setProp_board, seq_board]
  · cases A <;> cases B <;> simp_all [setProp_board, seq_board]
  · intro C hCA hCB
    cases A <;> cases B <;> cases C <;> simp_all [setProp_board, seq_board]

theorem handleTaskMoved_moves_witness :
    ∃ s' task pre post,
      handleTaskMoved ⟨board [[("id", .str "t1")]] [] [], false⟩ (.str "t1")
        Stage.todo.val Stage.inProgress.val = some s' ∧
      seq (board [[("id", .str "t1")]] [] []) .todo = pre ++ task :: post ∧
      task.id = .str "t1" ∧ (∀ x ∈ pre, x.id ≠ .str "t1") ∧
      seq s'.tasks .todo = (seq (board [[("id", .str "t1")]] [] []) .todo).filter
        (fun t => decide (t.id ≠ .str "t1")) ∧
      seq s'.tasks .inProgress = seq (board [[("id", .str "t1")]] [] []) .inProgress ++ [task] ∧
      ∀ C, C ≠ .todo → C ≠ .inProgress →
        seq s'.tasks C = seq (board [[("id", .str "t1")]] [] []) C :=
  handleTaskMoved_moves [[("id", .str "t1")]] [] [] false (.str "t1") .todo .inProgress
    (by decide) ⟨[("id", .str "t1")], by decide, by decide⟩

theorem totalTasks_board (a b c : List Task) :
    totalTasks (board a b c) = a.length + b.length + c.length := by
  simp [totalTasks, board]

theorem length_filter_ne_id (xs : List Task) (i : Val) :
    (xs.filter (fun t => decide (t.id ≠ i))).length + xs.countP (fun t => decide (t.id = i))
      = xs.length := by
  induction xs with
  | nil => rfl
  | cons x xs ih =>
    by_cases hx : x.id = i
    · simp [hx] at ih ⊢
      omega
    · simp [hx] at ih ⊢
      omega

/-- C8, the claim refuted: a move whose source and destination are the same
stage appends a second copy of the task, so the total grows from 1 to 2. -/
theorem handleTaskMoved_same_stage_grows :
    handleTaskMoved ⟨board [[("id", .str "t1")]] [] [], false⟩ (.str "t1")
        Stage.todo.val Stage.todo.val
      = some ⟨board [[("id", .str "t1")], [("id", .str "t1")]] [] [], false⟩ ∧
    totalTasks (board [[("id", .str "t1")]] [] []) = 1 ∧
    totalTasks (board [[("id", .str "t1")], [("id", .str "t1")]] [] []) = 2 := by
  decide

/-- C8, amended: a move between two different stages, of an id that occurs
exactly once in the source stage, leaves the total number of tasks unchanged,
shortens the source by one and lengthens the destination by one. -/
theorem handleTaskMoved_conserves (a b c : List Task) (l : Bool) (i : Val) (A B : Stage)
    (hAB : A ≠ B)
    (hone : (seq (board a b c) A).countP (fun t => decide (t.id = i)) = 1) :
    ∃ s', handleTaskMoved ⟨board a b c, l⟩ i A.val B.val = some s' ∧
      totalTasks s'.tasks = totalTasks (board a b c) ∧
      (seq s'.tasks A).length + 1 = (seq (board a b c) A).length ∧
      (seq s'.tasks B).length = (seq (board a b c) B).length + 1 := by
  have hex : ∃ t ∈ seq (board a b c) A, t.id = i := by
    have hpos : 0 < (seq (board a b c) A).countP (fun t => decide (t.id = i)) := by omega
    obtain ⟨t, ht, hp⟩ := List.countP_pos_iff.mp hpos
    exact ⟨t, ht, by simpa using hp⟩
  obtain ⟨task, hfind⟩ := find?_id_isSome _ i hex
  have hlen := length_filter_ne_id (seq (board a b c) A) i
  refine ⟨_, handleTaskMoved_found a b c l i A B task hfind, ?_, ?_, ?_⟩
  · cases A <;> cases B <;>
      simp_all [setProp_board, seq_board, totalTasks_board] <;> omega
  · cases A <;> cases B <;> simp_all [setProp_board, seq_board]
  · cases A <;> cases B <;> simp_all [setProp_board, seq_board]

theorem handleTaskMoved_conserves_witness :
    ∃ s', handleTaskMoved ⟨board [[("id", .str "t1")]] [] [[("id", .str "t2")]], false⟩
        (.str "t1") Stage.todo.val Stage.done.val = some s' ∧
      totalTasks s'.tasks = totalTasks (board [[("id", .str "t1")]] [] [[("id", .str "t2")]]) ∧
      (seq s'.tasks .todo).length + 1
        = (seq (board [[("id", .str "t1")]] [] [[("id", .str "t2")]]) .todo).length ∧
      (seq s'.tasks .done).length
        = (seq (board [[("id", .str "t1")]] [] [[("id", .str "t2")]]) .done).length + 1 :=
  handleTaskMoved_conserves [[("id", .str "t1")]] [] [[("id", .str "t2")]] false (.str "t1")
    .todo .done (by decide) (by decide)

/-! ## Shallow merge -/

theorem lookup_map_set {α : Type} (o : Obj α) (k k' : String) (v : α) :
    (o.map (fun p => if p.1 = k then (p.1, v) else p)).lookup k'
      = if k' = k then (o.lookup k).map (fun _ => v) else o.lookup k' := by
  induction o with
  | nil => simp
  | cons p o ih =>
    obtain ⟨pk, pv⟩ := p
    by_cases h1 : pk = k <;> by_cases h2 : k' = k <;> by_cases h3 : k' = pk <;>
      simp_all [List.lookup_cons] <;> (try (split <;> simp_all))

theorem lookup_setProp {α : Type} (o : Obj α) (k k' : String) (v : α) :
    (setProp o k v).lookup k' = if k' = k then some v else o.lookup k' := by
  unfold setProp
  cases h : o.lookup k with
  | some w => simp [lookup_map_set, h]
  | none =>
    by_cases hk : k' = k
    · subst hk
      simp [List.lookup_append, h, List.lookup_cons]
    · have hbeq : (k' == k) = false := by simpa using hk
      simp [List.lookup_append, hk, List.lookup_cons, hbeq]

theorem get_setProp (t : Task) (k k' : String) (v : Val) :
    Task.get (setProp t k v) k' = if k' = k then v else t.get k' := by
  unfold Task.get
  rw [lookup_setProp]
  by_cases hk : k' = k <;> simp [hk]

theorem get_merge (t u : Task) (hu : (u.map Prod.fst).Nodup) (k : String) :
    (merge t u).get k = match u.lookup k with
      | some v => v
      | none => t.get k := by
  induction u generalizing t with
  | nil => rfl
  | cons p u ih =>
    obtain ⟨pk, pv⟩ := p
    simp only [List.map_cons, List.nodup_cons] at hu
    have hstep : merge t ((pk, pv) :: u) = merge (setProp t pk pv) u := rfl
    rw [hstep, ih _ hu.2, get_setProp]
    by_cases hk : k = pk
    · subst hk
      have hnone : u.lookup k = none := by
        rw [List.lookup_eq_none_iff]
        intro p hp
        have hne : k ≠ p.1 := fun hpk => hu.1 (List.mem_map.mpr ⟨p, hp, hpk.symm⟩)
        simpa using hne
      simp [hnone, List.lookup_cons]
    · have hbeq : (k == pk) = false := by simpa using hk
      simp [hk, List.lookup_cons, hbeq]

theorem seq_setProp_board (a b c x : List Task) (st st' : Stage) :
    seq (setProp (board a b c) st.name x) st' = if st' = st then x else seq (board a b c) st' := by
  cases st <;> cases st' <;> simp [setProp_board, seq_board]

/-- C6: `task:updated` with one of the three stages keeps the length of that
stage's sequence; at every position a task with another id stays as it is and
a task with the id is replaced by one whose fields are those of `updates` where
`updates` defines them and those of the old task elsewhere; the other two
sequences are unchanged.  (`updates` is an object: its keys are distinct.) -/
theorem handleTaskUpdated_merges (a b c : List Task) (l : Bool) (i : Val) (u : Task)
    (st : Stage) (hu : (u.map Prod.fst).Nodup) :
    ∃ s', handleTaskUpdated ⟨board a b c, l⟩ i u st.val = some s' ∧
      (seq s'.tasks st).length = (seq (board a b c) st).length ∧
      (∀ (n : Nat) (t : Task), (seq (board a b c) st)[n]? = some t →
        ∃ t' : Task, (seq s'.tasks st)[n]? = some t' ∧
          (t.id ≠ i → t' = t) ∧
          (t.id = i → ∀ k, t'.get k = match u.lookup k with
            | some v => v
            | none => t.get k)) ∧
      ∀ st', st' ≠ st → seq s'.tasks st' = seq (board a b c) st' := by
  refine ⟨⟨setProp (board a b c) st.name ((seq (board a b c) st).map
      (fun task => if task.id = i then merge task u else task)), l⟩, ?_, ?_, ?_, ?_⟩
  · simp only [handleTaskUpdated, toPropertyKey_val, getProp_board]
  · simp [seq_setProp_board]
  · intro n t hn
    refine ⟨if t.id = i then merge t u else t, ?_, ?_, ?_⟩
    · simp [seq_setProp_board, List.getElem?_map, hn]
    · intro h
      simp [h]
    · intro h k
      simp only [h, if_true]
      exact get_merge t u hu k
  · intro st' h
    simp [seq_setProp_board, h]

theorem handleTaskUpdated_merges_witness :
    ∃ s', handleTaskUpdated
        ⟨board [] [[("id", .str "t1"), ("title", .str "a"), ("priority", .str "Low")]] [], false⟩
        (.str "t1") [("priority", .str "High")] Stage.inProgress.val = some s' ∧
      (seq s'.tasks .inProgress).length = (seq (board []
        [[("id", .str "t1"), ("title", .str "a"), ("priority", .str "Low")]] []) .inProgress).length ∧
      (∀ (n : Nat) (t : Task),
          (seq (board [] [[("id", .str "t1"), ("title", .str "a"), ("priority", .str "Low")]]
            []) .inProgress)[n]? = some t →
        ∃ t' : Task, (seq s'.tasks .inProgress)[n]? = some t' ∧
          (t.id ≠ .str "t1" → t' = t) ∧
          (t.id = .str "t1" → ∀ k, t'.get k =
            match List.lookup k [("priority", Val.str "High")] with
            | some v => v
            | none => t.get k)) ∧
      ∀ st', st' ≠ .inProgress → seq s'.tasks st' = seq (board []
        [[("id", .str "t1"), ("title", .str "a"), ("priority", .str "Low")]] []) st' :=
  handleTaskUpdated_merges [] [[("id", .str "t1"), ("title", .str "a"), ("priority", .str "Low")]]
    [] false (.str "t1") [("priority", .str "High")] .inProgress (by decide)

theorem pushGrouped_board (a b c : List Task) (t : Task)
    (h : t.columnKey ∉ objectPrototypeKeys) :
    pushGrouped (board a b c) t = some (board (a ++ [t].filter (declares .todo))
      (b ++ [t].filter (declares .inProgress)) (c ++ [t].filter (declares .done))) := by
  unfold pushGrouped
  simp only [declares, List.filter_cons, List.filter_nil, Stage.name]
  change t.columnKey ∉ objectPrototypeKeys at h
  show (match getProp (board a b c) t.columnKey with
    | .arr xs => some (setProp (board a b c) t.columnKey (xs ++ [t]))
    | .inherited => none
    | .undefined => some (board a b c)) = _
  generalize t.columnKey = k at h ⊢
  by_cases h1 : k = "To Do"
  · subst h1
    simp [getProp, board, setProp, List.lookup]
  by_cases h2 : k = "In Progress"
  · subst h2
    simp [getProp, board, setProp, List.lookup]
  by_cases h3 : k = "Done"
  · subst h3
    simp [getProp, board, setProp, List.lookup]
  have e1 : (k == "To Do") = false := by simpa using h1
  have e2 : (k == "In Progress") = false := by simpa using h2
  have e3 : (k == "Done") = false := by simpa using h3
  simp [getProp, board, List.lookup, e1, e2, e3, h]

theorem groupAll_board (T : List Task) (a b c : List Task)
    (h : ∀ t ∈ T, t.columnKey ∉ objectPrototypeKeys) :
    groupAll (board a b c) T = some (board (a ++ T.filter (declares .todo))
      (b ++ T.filter (declares .inProgress)) (c ++ T.filter (declares .done))) := by
  induction T generalizing a b c with
  | nil => simp [groupAll]
  | cons t T ih =>
    have ht := h t (List.mem_cons_self t T)
    have hT : ∀ x ∈ T, x.columnKey ∉ objectPrototypeKeys :=
      fun x hx => h x (List.mem_cons_of_mem t hx)
    simp only [groupAll, pushGrouped_board a b c t ht]
    rw [ih _ _ _ hT]
    have hcons : ∀ st, (t :: T).filter (declares st)
        = [t].filter (declares st) ++ T.filter (declares st) := by
      intro st
      rw [← List.filter_append]
      rfl
    simp only [hcons, List.append_assoc]

theorem handleSyncTasks_regroups (s : State) (T : List Task)
    (h : ∀ t ∈ T, t.columnKey ∉ objectPrototypeKeys) :
    handleSyncTasks s T = some ⟨board (T.filter (declares .todo))
      (T.filter (declares .inProgress)) (T.filter (declares .done)), false⟩ := by
  simp [handleSyncTasks, groupAll_board T [] [] [] h]

/-- C4: applying `sync:tasks` with the same list a second time gives what the
first application gave (task mapping and loading flag), the handler not reading
the previous state; and for a list naming no inherited property as a stage the
first application does give a state. -/
theorem handleSyncTasks_idempotent (s : State) (T : List Task) :
    (handleSyncTasks s T).bind (fun s' => handleSyncTasks s' T) = handleSyncTasks s T ∧
    ((∀ t ∈ T, t.columnKey ∉ objectPrototypeKeys) →
      ∃ s', handleSyncTasks s T = some s' ∧ handleSyncTasks s' T = some s') := by
  constructor
  · cases h : handleSyncTasks s T with
    | none => rfl
    | some s' => exact h
  · intro h
    exact ⟨_, handleSyncTasks_regroups s T h, handleSyncTasks_regroups _ T h⟩

theorem handleSyncTasks_idempotent_witness :
    ∃ s', handleSyncTasks ⟨board [[("id", .str "t0")]] [] [], true⟩
        [[("id", .str "t1"), ("column", .str "To Do")], [("id", .str "t2"), ("column", .str "X")]]
          = some s' ∧
      handleSyncTasks s'
        [[("id", .str "t1"), ("column", .str "To Do")], [("id", .str "t2"), ("column", .str "X")]]
          = some s' :=
  (handleSyncTasks_idempotent ⟨board [[("id", .str "t0")]] [] [], true⟩
    [[("id", .str "t1"), ("column", .str "To Do")], [("id", .str "t2"), ("column", .str "X")]]).2
    (by decide)

/-- C2, the code at the failing inputs: an event naming the unknown stage
`Backlog` makes each of the four handlers throw instead of giving back the
previous state. -/
theorem handlers_throw_on_unknown_stage :
    handleTaskCreated initialState [("id", .str "t1")] (.str "Backlog") = none ∧
    handleTaskUpdated initialState (.str "t1") [("title", .str "x")] (.str "Backlog") = none ∧
    handleTaskMoved initialState (.str "t1") (.str "Backlog") (.str "Done") = none ∧
    handleTaskMoved ⟨board [[("id", .str "t1")]] [] [], false⟩ (.str "t1") (.str "To Do")
      (.str "Backlog") = none ∧
    handleTaskDeleted initialState (.str "t1") (.str "Backlog") = none := by
  decide

/-- C3, the code at the failing input: a synced task whose `column` is
`constructor` passes the truthiness guard and the push on the inherited member
throws, so no state is produced. -/
theorem handleSyncTasks_throws_on_inherited_name :
    handleSyncTasks initialState
      [[("id", .str "t1"), ("column", .str "To Do")],
       [("id", .str "t2"), ("column", .str "constructor")]] = none := by
  decide

/-! ## No duplication across stages -/

theorem noDuplication_board (a b c : List Task) :
    NoDuplication (board a b c) ↔
      (∀ t ∈ a, ∀ t' ∈ b, t.id ≠ t'.id) ∧ (∀ t ∈ a, ∀ t' ∈ c, t.id ≠ t'.id) ∧
        (∀ t ∈ b, ∀ t' ∈ c, t.id ≠ t'.id) := by
  constructor
  · intro h
    exact ⟨h .todo .inProgress (by decide), h .todo .done (by decide),
      h .inProgress .done (by decide)⟩
  · rintro ⟨hab, hac, hbc⟩ st st' hne t ht t' ht'
    cases st <;> cases st' <;> simp only [seq_board] at ht ht' <;>
      first
        | exact absurd rfl hne
        | exact hab t ht t' ht'
        | exact hac t ht t' ht'
        | exact hbc t ht t' ht'
        | exact (hab t' ht' t ht).symm
        | exact (hac t' ht' t ht).symm
        | exact (hbc t' ht' t ht).symm

theorem Stage.name_injective (st st' : Stage) (h : st.name = st'.name) : st = st' := by
  cases st <;> cases st' <;> first | rfl | exact absurd h (by decide)

theorem setProp_isBoard (a b c x : List Task) (st : Stage) :
    ∃ a' b' c', setProp (board a b c) st.name x = board a' b' c' := by
  cases st <;> exact ⟨_, _, _, setProp_board _ _ _ _ _⟩

theorem seq_setProp_setProp_board (a b c x y : List Task) (A B st : Stage) :
    seq (setProp (setProp (board a b c) A.name x) B.name y) st
      = if st = B then y else if st = A then x else seq (board a b c) st := by
  cases A <;> cases B <;> cases st <;> simp [setProp_board, seq_board]

/-- Ids stay apart when every entry of the new mapping has the id of an old
entry of the same stage, or is an entry of stage `B` with the id `i` that no
other stage of the new mapping holds. -/
theorem noDuplication_of_sources (m m' : TaskMap) (B : Stage) (i : Val)
    (h : NoDuplication m)
    (hsrc : ∀ st, ∀ t ∈ seq m' st, (∃ x ∈ seq m st, x.id = t.id) ∨ (st = B ∧ t.id = i))
    (hfresh : ∀ st, st ≠ B → ∀ t ∈ seq m' st, t.id ≠ i) :
    NoDuplication m' := by
  intro st st' hne t ht t' ht' heq
  rcases hsrc st t ht with ⟨x, hx, hxt⟩ | ⟨hB, hi⟩
  · rcases hsrc st' t' ht' with ⟨x', hx', hxt'⟩ | ⟨hB', hi'⟩
    · exact h st st' hne x hx x' hx' (by rw [hxt, hxt', heq])
    · subst hB'
      exact hfresh st hne t ht (by rw [heq, hi'])
  · subst hB
    exact hfresh st' (Ne.symm hne) t' ht' (by rw [← heq, hi])

/-- Ids stay apart when every entry of the new mapping has the id of an old
entry of the same stage. -/
theorem noDuplication_of_subset (m m' : TaskMap) (h : NoDuplication m)
    (hsrc : ∀ st, ∀ t ∈ seq m' st, ∃ x ∈ seq m st, x.id = t.id) :
    NoDuplication m' := by
  intro st st' hne t ht t' ht' heq
  obtain ⟨x, hx, hxt⟩ := hsrc st t ht
  obtain ⟨x', hx', hxt'⟩ := hsrc st' t' ht'
  exact h st st' hne x hx x' hx' (by rw [hxt, hxt', heq])

theorem step_created (a b c : List Task) (l : Bool) (task : Task) (st : Stage)
    (h : NoDuplication (board a b c))
    (hnew : ∀ st', st' ≠ st → ∀ t' ∈ seq (board a b c) st', t'.id ≠ task.id) :
    ∃ a' b' c' l', handleTaskCreated ⟨board a b c, l⟩ task st.val = some ⟨board a' b' c', l'⟩ ∧
      NoDuplication (board a' b' c') := by
  obtain ⟨a', b', c', hb⟩ := setProp_isBoard a b c (seq (board a b c) st ++ [task]) st
  refine ⟨a', b', c', false, ?_, ?_⟩
  · simp only [handleTaskCreated, toPropertyKey_val, getProp_board, hb]
  · rw [← hb]
    apply noDuplication_of_sources (board a b c) _ st task.id h
    · intro st' t ht
      rw [seq_setProp_board] at ht
      by_cases hst : st' = st
      · subst hst
        simp only [if_true, List.mem_append, List.mem_singleton] at ht
        rcases ht with ht | rfl
        · exact Or.inl ⟨t, ht, rfl⟩
        · exact Or.inr ⟨rfl, rfl⟩
      · simp only [hst, if_false] at ht
        exact Or.inl ⟨t, ht, rfl⟩
    · intro st' hst t ht
      rw [seq_setProp_board] at ht
      simp only [hst, if_false] at ht
      exact hnew st' hst t ht

theorem step_deleted (a b c : List Task) (l : Bool) (i : Val) (st : Stage)
    (h : NoDuplication (board a b c)) :
    ∃ a' b' c' l', handleTaskDeleted ⟨board a b c, l⟩ i st.val = some ⟨board a' b' c', l'⟩ ∧
      NoDuplication (board a' b' c') := by
  obtain ⟨a', b', c', hb⟩ := setProp_isBoard a b c
    ((seq (board a b c) st).filter (fun task => decide (task.id ≠ i))) st
  refine ⟨a', b', c', l, ?_, ?_⟩
  · simp only [handleTaskDeleted, toPropertyKey_val, getProp_board, hb]
  · rw [← hb]
    apply noDuplication_of_subset (board a b c) _ h
    intro st' t ht
    rw [seq_setProp_board] at ht
    by_cases hst : st' = st
    · subst hst
      simp only [if_true] at ht
      exact ⟨t, List.mem_of_mem_filter ht, rfl⟩
    · simp only [hst, if_false] at ht
      exact ⟨t, ht, rfl⟩

theorem get_merge_of_not_defined (t u : Task) (k : String) (hk : u.lookup k = none) :
    (merge t u).get k = t.get k := by
  induction u generalizing t with
  | nil => rfl
  | cons p u ih =>
    obtain ⟨pk, pv⟩ := p
    have hstep : merge t ((pk, pv) :: u) = merge (setProp t pk pv) u := rfl
    have hne : k ≠ pk := by
      intro hkp
      subst hkp
      simp [List.lookup_cons] at hk
    have hbeq : (k == pk) = false := by simpa using hne
    have hu : u.lookup k = none := by simpa [List.lookup_cons, hbeq] using hk
    rw [hstep, ih _ hu, get_setProp, if_neg hne]

theorem step_updated (a b c : List Task) (l : Bool) (i : Val) (u : Task) (st : Stage)
    (h : NoDuplication (board a b c)) (hu : u.lookup "id" = none) :
    ∃ a' b' c' l', handleTaskUpdated ⟨board a b c, l⟩ i u st.val = some ⟨board a' b' c', l'⟩ ∧
      NoDuplication (board a' b' c') := by
  obtain ⟨a', b', c', hb⟩ := setProp_isBoard a b c
    ((seq (board a b c) st).map (fun task => if task.id = i then merge task u else task)) st
  refine ⟨a', b', c', l, ?_, ?_⟩
  · simp only [handleTaskUpdated, toPropertyKey_val, getProp_board, hb]
  · rw [← hb]
    apply noDuplication_of_subset (board a b c) _ h
    intro st' t ht
    rw [seq_setProp_board] at ht
    by_cases hst : st' = st
    · subst hst
      simp only [if_true, List.mem_map] at ht
      obtain ⟨x, hx, rfl⟩ := ht
      refine ⟨x, hx, ?_⟩
      by_cases hxi : x.id = i
      · rw [if_pos hxi]
        exact (get_merge_of_not_defined x u "id" hu).symm
      · rw [if_neg hxi]
    · simp only [hst, if_false] at ht
      exact ⟨t, ht, rfl⟩

theorem step_moved (a b c : List Task) (l : Bool) (i : Val) (A B : Stage)
    (h : NoDuplication (board a b c)) :
    ∃ a' b' c' l', handleTaskMoved ⟨board a b c, l⟩ i A.val B.val = some ⟨board a' b' c', l'⟩ ∧
      NoDuplication (board a' b' c') := by
  cases hfind : (seq (board a b c) A).find? (fun t => decide (t.id = i)) with
  | none =>
    refine ⟨a, b, c, l, ?_, h⟩
    simp only [handleTaskMoved, toPropertyKey_val, getProp_board, hfind]
  | some task =>
    have hmem : task ∈ seq (board a b c) A := List.mem_of_find?_eq_some hfind
    have hid : task.id = i := by simpa using List.find?_some hfind
    obtain ⟨a₁, b₁, c₁, hb₁⟩ := setProp_isBoard a b c
      ((seq (board a b c) A).filter (fun t => decide (t.id ≠ i))) A
    obtain ⟨a', b', c', hb⟩ := setProp_isBoard a₁ b₁ c₁ (seq (board a b c) B ++ [task]) B
    rw [← hb₁] at hb
    refine ⟨a', b', c', l, ?_, ?_⟩
    · rw [handleTaskMoved_found a b c l i A B task hfind, hb]
    · rw [← hb]
      apply noDuplication_of_sources (board a b c) _ B i h
      · intro st t ht
        rw [seq_setProp_setProp_board] at ht
        by_cases hB : st = B
        · subst hB
          simp only [if_true, List.mem_append, List.mem_singleton] at ht
          rcases ht with ht | rfl
          · exact Or.inl ⟨t, ht, rfl⟩
          · exact Or.inr ⟨rfl, hid⟩
        · simp only [hB, if_false] at ht
          by_cases hA : st = A
          · subst hA
            simp only [if_true] at ht
            exact Or.inl ⟨t, List.mem_of_mem_filter ht, rfl⟩
          · simp only [hA, if_false] at ht
            exact Or.inl ⟨t, ht, rfl⟩
      · intro st hB t ht
        rw [seq_setProp_setProp_board] at ht
        simp only [hB, if_false] at ht
        by_cases hA : st = A
        · subst hA
          simp only [if_true, List.mem_filter] at ht
          simpa using ht.2
        · simp only [hA, if_false] at ht
          rw [← hid]
          exact h st A hA t ht task hmem

theorem seq_board_filter (T : List Task) (st : Stage) :
    seq (board (T.filter (declares .todo)) (T.filter (declares .inProgress))
      (T.filter (declares .done))) st = T.filter (declares st) := by
  cases st <;> rfl

theorem step_sync (s : State) (T : List Task)
    (hclean : ∀ t ∈ T, t.columnKey ∉ objectPrototypeKeys)
    (hids : ∀ t ∈ T, ∀ t' ∈ T, t.id = t'.id → t.columnKey = t'.columnKey) :
    ∃ a' b' c' l', handleSyncTasks s T = some ⟨board a' b' c', l'⟩ ∧
      NoDuplication (board a' b' c') := by
  refine ⟨_, _, _, _, handleSyncTasks_regroups s T hclean, ?_⟩
  intro st st' hne t ht t' ht' heq
  rw [seq_board_filter, List.mem_filter] at ht ht'
  have hk := hids t ht.1 t' ht'.1 heq
  have h1 : t.columnKey = st.name := by simpa [declares] using ht.2
  have h2 : t'.columnKey = st'.name := by simpa [declares] using ht'.2
  exact hne (Stage.name_injective st st' (by rw [← h1, ← h2, hk]))

/-- One admitted event, applied to a board whose ids are apart, gives a board
whose ids are apart. -/
theorem apply_keepsIds (a b c : List Task) (l : Bool) (e : Event)
    (h : NoDuplication (board a b c)) (hk : e.keepsIds (board a b c)) :
    ∃ a' b' c' l', apply ⟨board a b c, l⟩ e = some ⟨board a' b' c', l'⟩ ∧
      NoDuplication (board a' b' c') := by
  cases e with
  | syncTasks T => exact step_sync ⟨board a b c, l⟩ T hk.1 hk.2
  | taskCreated task column =>
    obtain ⟨st, rfl, hnew⟩ := hk
    exact step_created a b c l task st h hnew
  | taskUpdated i u column =>
    obtain ⟨⟨st, rfl⟩, hu⟩ := hk
    exact step_updated a b c l i u st h hu
  | taskMoved i A B =>
    obtain ⟨⟨sA, rfl⟩, sB, rfl⟩ := hk
    exact step_moved a b c l i sA sB h
  | taskDeleted i column =>
    obtain ⟨st, rfl⟩ := hk
    exact step_deleted a b c l i st h

theorem run_admissible (es : List Event) (a b c : List Task) (l : Bool)
    (h : NoDuplication (board a b c)) (hadm : Admissible ⟨board a b c, l⟩ es) :
    ∃ s', run ⟨board a b c, l⟩ es = some s' ∧ NoDuplication s'.tasks := by
  induction es generalizing a b c l with
  | nil => exact ⟨_, rfl, h⟩
  | cons e es ih =>
    obtain ⟨hk, hrest⟩ := hadm
    obtain ⟨a', b', c', l', happ, hnd⟩ := apply_keepsIds a b c l e h hk
    simp only [happ] at hrest
    simp only [run, happ]
    exact ih a' b' c' l' hnd hrest

/-- C1, the claim refuted: two `task:created` events carrying the same id for
two stages leave that id in both. -/
theorem created_twice_duplicates :
    run initialState [.taskCreated [("id", .str "t1")] (.str "To Do"),
        .taskCreated [("id", .str "t1")] (.str "Done")]
      = some ⟨board [[("id", .str "t1")]] [] [[("id", .str "t1")]], false⟩ ∧
    ¬ NoDuplication (board [[("id", .str "t1")]] [] [[("id", .str "t1")]]) := by
  decide

/-- C1, amended: from the empty initial state, every finite sequence of events
each of which names only the fixed stages and brings no id into a second stage
(see `Event.keepsIds`) is applied without a throw and ends in a state in which
every task id occurs in the sequence of at most one stage. -/
theorem noDuplication_of_admissible (es : List Event) (hadm : Admissible initialState es) :
    ∃ s', run initialState es = some s' ∧ NoDuplication s'.tasks :=
  run_admissible es [] [] [] false (by decide) hadm

theorem noDuplication_of_admissible_witness :
    ∃ s', run initialState
        [.syncTasks [[("id", .str "t1"), ("column", .str "To Do")]],
         .taskCreated [("id", .str "t2")] (.str "Done"),
         .taskMoved (.str "t1") (.str "To Do") (.str "In Progress"),
         .taskUpdated (.str "t1") [("priority", .str "High")] (.str "In Progress"),
         .taskDeleted (.str "t2") (.str "Done")] = some s' ∧ NoDuplication s'.tasks :=
  noDuplication_of_admissible _ (by decide)

/-! ## Delete -/

theorem handleTaskDeleted_board (a b c : List Task) (l : Bool) (i : Val) (st : Stage) :
    handleTaskDeleted ⟨board a b c, l⟩ i st.val =
      some ⟨setProp (board a b c) st.name
        ((seq (board a b c) st).filter (fun task => decide (task.id ≠ i))), l⟩ := by
  simp only [handleTaskDeleted, toPropertyKey_val, getProp_board]

theorem setProp_board_same (a b c : List Task) (st : Stage) :
    setProp (board a b c) st.name (seq (board a b c) st) = board a b c := by
  cases st <;> simp [setProp_board, seq_board]

/-- C11: `task:deleted` with one of the three stages leaves in that stage's
sequence no task of the id, keeping exactly the tasks of another id in their
old order, and leaves the sequences of the other two stages as they were, even
where they hold the id. -/
theorem handleTaskDeleted_removes (a b c : List Task) (l : Bool) (i : Val) (st : Stage) :
    ∃ s', handleTaskDeleted ⟨board a b c, l⟩ i st.val = some s' ∧
      (∀ t ∈ seq s'.tasks st, t.id ≠ i) ∧
      seq s'.tasks st = (seq (board a b c) st).filter (fun task => decide (task.id ≠ i)) ∧
      (seq s'.tasks st).Sublist (seq (board a b c) st) ∧
      ∀ st', st' ≠ st → seq s'.tasks st' = seq (board a b c) st' := by
  refine ⟨_, handleTaskDeleted_board a b c l i st, ?_, ?_, ?_, ?_⟩
  · intro t ht
    simp only [seq_setProp_board, if_true, List.mem_filter] at ht
    simpa using ht.2
  · simp [seq_setProp_board]
  · simp only [seq_setProp_board, if_true]
    exact List.filter_sublist _
  · intro st' h
    simp [seq_setProp_board, h]

/-- C12: `task:deleted` applied a second time gives the state the first
application gave, and when no task of the stage has the id the first application
gives back the state it was applied to. -/
theorem handleTaskDeleted_idempotent (a b c : List Task) (l : Bool) (i : Val) (st : Stage) :
    ∃ s', handleTaskDeleted ⟨board a b c, l⟩ i st.val = some s' ∧
      handleTaskDeleted s' i st.val = some s' ∧
      ((∀ t ∈ seq (board a b c) st, t.id ≠ i) → s' = ⟨board a b c, l⟩) := by
  obtain ⟨a', b', c', hb⟩ := setProp_isBoard a b c
    ((seq (board a b c) st).filter (fun task => decide (task.id ≠ i))) st
  have hseq : seq (board a' b' c') st
      = (seq (board a b c) st).filter (fun task => decide (task.id ≠ i)) := by
    rw [← hb, seq_setProp_board, if_pos rfl]
  refine ⟨⟨board a' b' c', l⟩, ?_, ?_, ?_⟩
  · rw [handleTaskDeleted_board, hb]
  · rw [handleTaskDeleted_board, hseq, List.filter_filter]
    simp only [Bool.and_self]
    rw [← hseq, setProp_board_same]
  · intro h
    have hfil : (seq (board a b c) st).filter (fun task => decide (task.id ≠ i))
        = seq (board a b c) st := by
      rw [List.filter_eq_self]
      intro t ht
      simpa using h t ht
    rw [← hb, hfil, setProp_board_same]

theorem handleTaskDeleted_idempotent_witness :
    ∃ s', handleTaskDeleted ⟨board [] [] [[("id", .str "t2")], [("id", .str "t3")]], false⟩
        (.str "t2") Stage.done.val = some s' ∧
      handleTaskDeleted s' (.str "t2") Stage.done.val = some s' ∧
      ((∀ t ∈ seq (board [] [] [[("id", .str "t2")], [("id", .str "t3")]]) .done,
          t.id ≠ .str "t2") →
        s' = ⟨board [] [] [[("id", .str "t2")], [("id", .str "t3")]], false⟩) :=
  handleTaskDeleted_idempotent [] [] [[("id", .str "t2")], [("id", .str "t3")]] false
    (.str "t2") .done

/-! ## The stage keys -/

theorem keys_setProp {α : Type} (o : Obj α) (k : String) (v w : α) (h : o.lookup k = some w) :
    (setProp o k v).map Prod.fst = o.map Prod.fst := by
  unfold setProp
  rw [h]
  simp only [List.map_map]
  apply List.map_congr_left
  intro p _
  by_cases hp : p.1 = k <;> simp [hp]

theorem lookup_of_getProp (o : TaskMap) (k : String) (xs : List Task)
    (h : getProp o k = .arr xs) : o.lookup k = some xs := by
  unfold getProp at h
  cases hl : o.lookup k with
  | some ys =>
    rw [hl] at h
    simpa using h
  | none =>
    rw [hl] at h
    by_cases hk : k ∈ objectPrototypeKeys
    · simp [hk] at h
    · simp [hk] at h

theorem keys_pushGrouped (g g' : TaskMap) (t : Task) (h : pushGrouped g t = some g') :
    keys g' = keys g := by
  unfold pushGrouped at h
  cases hg : getProp g (t.get "column").toPropertyKey with
  | arr xs =>
    rw [hg] at h
    simp only [Option.some.injEq] at h
    rw [← h]
    exact keys_setProp g _ _ xs (lookup_of_getProp g _ xs hg)
  | inherited =>
    rw [hg] at h
    simp at h
  | undefined =>
    rw [hg] at h
    simp only [Option.some.injEq] at h
    rw [h]

theorem keys_groupAll (T : List Task) (g g' : TaskMap) (h : groupAll g T = some g') :
    keys g' = keys g := by
  induction T generalizing g with
  | nil =>
    simp only [groupAll, Option.some.injEq] at h
    rw [h]
  | cons t T ih =>
    simp only [groupAll] at h
    cases hp : pushGrouped g t with
    | none =>
      rw [hp] at h
      simp at h
    | some g₁ =>
      rw [hp] at h
      rw [ih g₁ h, keys_pushGrouped g g₁ t hp]

/-- A handler that returns a state returns one with the three column keys. -/
theorem keys_apply (s s' : State) (e : Event) (hs : keys s.tasks = COLUMNS)
    (h : apply s e = some s') : keys s'.tasks = COLUMNS := by
  cases e with
  | syncTasks T =>
    simp only [apply, handleSyncTasks] at h
    cases hg : groupAll (board [] [] []) T with
    | none =>
      rw [hg] at h
      simp at h
    | some g =>
      rw [hg] at h
      simp only [Option.some.injEq] at h
      rw [← h]
      exact keys_groupAll T _ g hg
  | taskCreated task column =>
    simp only [apply, handleTaskCreated] at h
    cases hg : getProp s.tasks column.toPropertyKey with
    | arr xs =>
      rw [hg] at h
      simp only [Option.some.injEq] at h
      rw [← h, ← hs]
      exact keys_setProp _ _ _ xs (lookup_of_getProp _ _ xs hg)
    | inherited =>
      rw [hg] at h
      simp at h
    | undefined =>
      rw [hg] at h
      simp at h
  | taskUpdated i u column =>
    simp only [apply, handleTaskUpdated] at h
    cases hg : getProp s.tasks column.toPropertyKey with
    | arr xs =>
      rw [hg] at h
      simp only [Option.some.injEq] at h
      rw [← h, ← hs]
      exact keys_setProp _ _ _ xs (lookup_of_getProp _ _ xs hg)
    | inherited =>
      rw [hg] at h
      simp at h
    | undefined =>
      rw [hg] at h
      simp at h
  | taskMoved i A B =>
    simp only [apply, handleTaskMoved] at h
    cases hg : getProp s.tasks A.toPropertyKey with
    | arr src =>
      rw [hg] at h
      simp only at h
      cases hf : src.find? (fun t => decide (t.id = i)) with
      | none =>
        rw [hf] at h
        simp only [Option.some.injEq] at h
        rw [← h, hs]
      | some task =>
        rw [hf] at h
        simp only at h
        cases hd : getProp s.tasks B.toPropertyKey with
        | arr dst =>
          rw [hd] at h
          simp only [Option.some.injEq] at h
          rw [← h, ← hs]
          have hA := lookup_of_getProp _ _ src hg
          have hB := lookup_of_getProp _ _ dst hd
          have hin : ∃ w, (setProp s.tasks A.toPropertyKey
              (src.filter (fun t => decide (t.id ≠ i)))).lookup B.toPropertyKey = some w := by
            rw [lookup_setProp]
            by_cases hk : B.toPropertyKey = A.toPropertyKey
            · exact ⟨_, by rw [if_pos hk]⟩
            · exact ⟨dst, by rw [if_neg hk, hB]⟩
          obtain ⟨w, hw⟩ := hin
          show List.map Prod.fst _ = List.map Prod.fst _
          rw [keys_setProp _ _ _ w hw, keys_setProp _ _ _ src hA]
        | inherited =>
          rw [hd] at h
          simp at h
        | undefined =>
          rw [hd] at h
          simp at h
    | inherited =>
      rw [hg] at h
      simp at h
    | undefined =>
      rw [hg] at h
      simp at h
  | taskDeleted i column =>
    simp only [apply, handleTaskDeleted] at h
    cases hg : getProp s.tasks column.toPropertyKey with
    | arr xs =>
      rw [hg] at h
      simp only [Option.some.injEq] at h
      rw [← h, ← hs]
      exact keys_setProp _ _ _ xs (lookup_of_getProp _ _ xs hg)
    | inherited =>
      rw [hg] at h
      simp at h
    | undefined =>
      rw [hg] at h
      simp at h

theorem keys_run (es : List Event) (s s' : State) (hs : keys s.tasks = COLUMNS)
    (h : run s es = some s') : keys s'.tasks = COLUMNS := by
  induction es generalizing s with
  | nil =>
    simp only [run, Option.some.injEq] at h
    rw [← h, hs]
  | cons e es ih =>
    simp only [run] at h
    cases ha : apply s e with
    | none =>
      rw [ha] at h
      simp at h
    | some s₁ =>
      rw [ha] at h
      exact ih s₁ (keys_apply s s₁ e hs ha) h

/-- C13: the task mapping of the initial state has exactly the keys `To Do`,
`In Progress` and `Done`, and so has every state that a sequence of inbound
events, each handled without a throw, leads to from it. -/
theorem stage_keys_fixed (es : List Event) (s' : State) (h : run initialState es = some s') :
    keys initialState.tasks = ["To Do", "In Progress", "Done"] ∧
      keys s'.tasks = ["To Do", "In Progress", "Done"] :=
  ⟨rfl, keys_run es initialState s' rfl h⟩

theorem stage_keys_fixed_witness :
    keys initialState.tasks = ["To Do", "In Progress", "Done"] ∧
      keys (State.mk (board [] [[("id", .str "t1"), ("column", .str "To Do")]]
        [[("id", .str "t2")]]) false).tasks = ["To Do", "In Progress", "Done"] :=
  stage_keys_fixed
    [.syncTasks [[("id", .str "t1"), ("column", .str "To Do")],
        [("id", .str "t9"), ("column", .str "Backlog")]],
      .taskCreated [("id", .str "t2")] (.str "Done"),
      .taskMoved (.str "t1") (.str "To Do") (.str "In Progress")]
    ⟨board [] [[("id", .str "t1"), ("column", .str "To Do")]] [[("id", .str "t2")]], false⟩
    (by decide)

/-! ## Commands and the effect -/

/-- C14: with a socket, each command makes exactly one call on it, the `emit`
of its message with exactly its arguments as payload, and leaves the task
mapping as it was. -/
theorem commands_emit_one_message (sock : Socket) (s : State) (d u : Task)
    (i c a b : Val) :
    ((createTask (some sock) s d c).2
        = [.emit "task:create" (some [("task", .object d), ("column", .val c)])] ∧
      emitted (createTask (some sock) s d c).2
        = [("task:create", some [("task", .object d), ("column", .val c)])] ∧
      (createTask (some sock) s d c).1.tasks = s.tasks) ∧
    ((updateTask (some sock) s i u c).2
        = [.emit "task:update"
            (some [("taskId", .val i), ("updates", .object u), ("column", .val c)])] ∧
      emitted (updateTask (some sock) s i u c).2
        = [("task:update",
            some [("taskId", .val i), ("updates", .object u), ("column", .val c)])] ∧
      (updateTask (some sock) s i u c).1.tasks = s.tasks) ∧
    ((moveTask (some sock) s i a b).2
        = [.emit "task:move"
            (some [("taskId", .val i), ("fromColumn", .val a), ("toColumn", .val b)])] ∧
      emitted (moveTask (some sock) s i a b).2
        = [("task:move",
            some [("taskId", .val i), ("fromColumn", .val a), ("toColumn", .val b)])] ∧
      (moveTask (some sock) s i a b).1.tasks = s.tasks) ∧
    ((deleteTask (some sock) s i c).2
        = [.emit "task:delete" (some [("taskId", .val i), ("column", .val c)])] ∧
      emitted (deleteTask (some sock) s i c).2
        = [("task:delete", some [("taskId", .val i), ("column", .val c)])] ∧
      (deleteTask (some sock) s i c).1.tasks = s.tasks) :=
  ⟨⟨rfl, rfl, rfl⟩, ⟨rfl, rfl, rfl⟩, ⟨rfl, rfl, rfl⟩, ⟨rfl, rfl, rfl⟩⟩

/-- C15: with a null socket the effect registers no listener and emits nothing,
there is no cleanup call, and each command returns having made no call and
having left the task mapping and the loading flag as they were; from the
initial state the mapping stays the three empty stages. -/
theorem null_socket_no_op (s : State) (d u : Task) (i c a b : Val) :
    useTasksEffect none s = (s, []) ∧
    useTasksCleanup none = [] ∧
    Hook.mount none = ⟨⟨board [] [] [], false⟩, []⟩ ∧
    createTask none s d c = (s, []) ∧
    updateTask none s i u c = (s, []) ∧
    moveTask none s i a b = (s, []) ∧
    deleteTask none s i c = (s, []) :=
  ⟨rfl, rfl, rfl, rfl, rfl, rfl, rfl⟩

theorem calls_receiveAll (es : List Event) (h h' : Hook) (hr : h.receiveAll es = some h') :
    h'.calls = h.calls := by
  induction es generalizing h with
  | nil =>
    simp only [Hook.receiveAll, Option.some.injEq] at hr
    rw [hr]
  | cons e es ih =>
    simp only [Hook.receiveAll] at hr
    cases h1 : h.receive e with
    | none =>
      rw [h1] at hr
      simp at hr
    | some h₁ =>
      rw [h1] at hr
      have hc : h₁.calls = h.calls := by
        unfold Hook.receive at h1
        cases ha : apply h.state e with
        | none =>
          rw [ha] at h1
          simp at h1
        | some s₁ =>
          rw [ha] at h1
          simp only [Option.some.injEq] at h1
          rw [← h1]
      rw [ih h₁ hr, hc]

/-- C17: the effect run with a socket emits exactly one message, `sync:tasks`
without payload, and sets the loading flag; whatever inbound events are then
handled, the messages emitted so far stay that one. -/
theorem effect_requests_sync (sock : Socket) (s : State) (es : List Event) (h' : Hook)
    (hr : (Hook.mount (some sock)).receiveAll es = some h') :
    emitted (useTasksEffect (some sock) s).2 = [("sync:tasks", none)] ∧
    (useTasksEffect (some sock) s).1.loading = true ∧
    (useTasksEffect (some sock) s).1.tasks = s.tasks ∧
    emitted h'.calls = [("sync:tasks", none)] := by
  refine ⟨rfl, rfl, rfl, ?_⟩
  rw [calls_receiveAll es _ h' hr]
  rfl

theorem effect_requests_sync_witness :
    emitted (useTasksEffect (some ⟨7⟩) initialState).2 = [("sync:tasks", none)] ∧
    (useTasksEffect (some ⟨7⟩) initialState).1.loading = true ∧
    (useTasksEffect (some ⟨7⟩) initialState).1.tasks = initialState.tasks ∧
    emitted (Hook.mk ⟨board [[("id", .str "t1"), ("column", .str "To Do")]] []
      [[("id", .str "t2")]], false⟩ (useTasksEffect (some ⟨7⟩) initialState).2).calls
        = [("sync:tasks", none)] :=
  effect_requests_sync ⟨7⟩ initialState
    [.syncTasks [[("id", .str "t1"), ("column", .str "To Do")]],
      .taskCreated [("id", .str "t2")] (.str "Done")]
    ⟨⟨board [[("id", .str "t1"), ("column", .str "To Do")]] [] [[("id", .str "t2")]], false⟩,
      (useTasksEffect (some ⟨7⟩) initialState).2⟩
    (by decide)

/-! ## The loading flag -/

theorem loading_apply (s s' : State) (e : Event) (h : apply s e = some s') :
    s'.loading = false ∨ s'.loading = s.loading := by
  cases e with
  | syncTasks T =>
    simp only [apply, handleSyncTasks] at h
    cases hg : groupAll (board [] [] []) T with
    | none =>
      rw [hg] at h
      simp at h
    | some g =>
      rw [hg] at h
      simp only [Option.some.injEq] at h
      exact Or.inl (by rw [← h])
  | taskCreated task column =>
    simp only [apply, handleTaskCreated] at h
    cases hg : getProp s.tasks column.toPropertyKey with
    | arr xs =>
      rw [hg] at h
      simp only [Option.some.injEq] at h
      exact Or.inl (by rw [← h])
    | inherited =>
      rw [hg] at h
      simp at h
    | undefined =>
      rw [hg] at h
      simp at h
  | taskUpdated i u column =>
    simp only [apply, handleTaskUpdated] at h
    cases hg : getProp s.tasks column.toPropertyKey with
    | arr xs =>
      rw [hg] at h
      simp only [Option.some.injEq] at h
      exact Or.inr (by rw [← h])
    | inherited =>
      rw [hg] at h
      simp at h
    | undefined =>
      rw [hg] at h
      simp at h
  | taskMoved i A B =>
    simp only [apply, handleTaskMoved] at h
    cases hg : getProp s.tasks A.toPropertyKey with
    | arr src =>
      rw [hg] at h
      simp only at h
      cases hf : src.find? (fun t => decide (t.id = i)) with
      | none =>
        rw [hf] at h
        simp only [Option.some.injEq] at h
        exact Or.inr (by rw [← h])
      | some task =>
        rw [hf] at h
        simp only at h
        cases hd : getProp s.tasks B.toPropertyKey with
        | arr dst =>
          rw [hd] at h
          simp only [Option.some.injEq] at h
          exact Or.inr (by rw [← h])
        | inherited =>
          rw [hd] at h
          simp at h
        | undefined =>
          rw [hd] at h
          simp at h
    | inherited =>
      rw [hg] at h
      simp at h
    | undefined =>
      rw [hg] at h
      simp at h
  | taskDeleted i column =>
    simp only [apply, handleTaskDeleted] at h
    cases hg : getProp s.tasks column.toPropertyKey with
    | arr xs =>
      rw [hg] at h
      simp only [Option.some.injEq] at h
      exact Or.inr (by rw [← h])
    | inherited =>
      rw [hg] at h
      simp at h
    | undefined =>
      rw [hg] at h
      simp at h

theorem handleTaskMoved_board_loading (a b c : List Task) (l : Bool) (i : Val) (A B : Stage) :
    ∃ s', handleTaskMoved ⟨board a b c, l⟩ i A.val B.val = some s' ∧ s'.loading = l := by
  cases hfind : (seq (board a b c) A).find? (fun t => decide (t.id = i)) with
  | none =>
    refine ⟨⟨board a b c, l⟩, ?_, rfl⟩
    simp only [handleTaskMoved, toPropertyKey_val, getProp_board, hfind]
  | some task => exact ⟨_, handleTaskMoved_found a b c l i A B task hfind, rfl⟩

/-- Where the handlers return a state on a board: `sync:tasks` and
`task:created` (for a fixed stage) give a loading flag that is false whatever it
was, and `task:updated`, `task:moved` and `task:deleted` (for fixed stages) give
the previous loading flag. -/
theorem loading_after_events (a b c : List Task) (l : Bool) (T : List Task) (t u : Task)
    (i : Val) (st st' : Stage) :
    (∀ s', handleSyncTasks ⟨board a b c, l⟩ T = some s' → s'.loading = false) ∧
    ((∀ x ∈ T, x.columnKey ∉ objectPrototypeKeys) →
      ∃ s', handleSyncTasks ⟨board a b c, l⟩ T = some s' ∧ s'.loading = false) ∧
    (∃ s', handleTaskCreated ⟨board a b c, l⟩ t st.val = some s' ∧ s'.loading = false) ∧
    (∃ s', handleTaskUpdated ⟨board a b c, l⟩ i u st.val = some s' ∧ s'.loading = l) ∧
    (∃ s', handleTaskMoved ⟨board a b c, l⟩ i st.val st'.val = some s' ∧ s'.loading = l) ∧
    (∃ s', handleTaskDeleted ⟨board a b c, l⟩ i st.val = some s' ∧ s'.loading = l) := by
  refine ⟨?_, ?_, ?_, ?_, handleTaskMoved_board_loading a b c l i st st', ?_⟩
  · intro s' h
    simp only [handleSyncTasks] at h
    cases hg : groupAll (board [] [] []) T with
    | none =>
      rw [hg] at h
      simp at h
    | some g =>
      rw [hg] at h
      simp only [Option.some.injEq] at h
      rw [← h]
  · intro hclean
    exact ⟨_, handleSyncTasks_regroups _ T hclean, rfl⟩
  · refine ⟨⟨setProp (board a b c) st.name (seq (board a b c) st ++ [t]), false⟩, ?_, rfl⟩
    simp only [handleTaskCreated, toPropertyKey_val, getProp_board]
  · refine ⟨⟨setProp (board a b c) st.name ((seq (board a b c) st).map
      (fun task => if task.id = i then merge task u else task)), l⟩, ?_, rfl⟩
    simp only [handleTaskUpdated, toPropertyKey_val, getProp_board]
  · exact ⟨_, handleTaskDeleted_board a b c l i st, rfl⟩

/-- C18, the code at the failing input: with the loading flag true, a
`sync:tasks` list holding a task whose `column` is `constructor` makes the
listener throw before `setLoading(false)`, so the loading flag is still true
afterwards. -/
theorem sync_throw_leaves_loading :
    handleSyncTasks ⟨board [] [] [], true⟩
      [[("id", .str "t1"), ("column", .str "To Do")],
       [("id", .str "t2"), ("column", .str "constructor")]] = none ∧
    (afterSyncTasks ⟨board [] [] [], true⟩
      [[("id", .str "t1"), ("column", .str "To Do")],
       [("id", .str "t2"), ("column", .str "constructor")]]).loading = true ∧
    (afterSyncTasks ⟨board [] [] [], true⟩
      [[("id", .str "t1"), ("column", .str "To Do")]]).loading = false := by
  decide

/-- C19, the claim refuted: `createTask` invoked with a socket while the
loading flag is false sets it to true. -/
theorem createTask_sets_loading :
    initialState.loading = false ∧
    (createTask (some ⟨1⟩) initialState [("title", .str "New Task")] (.str "To Do")).1.loading
      = true := by
  decide

/-- C19, amended: the loading flag is set to true by the effect run with a
socket (the full-sync request) and by `createTask` invoked with a socket;
`updateTask`, `moveTask` and `deleteTask` leave it as it is, so does
`createTask` with a null socket, and no inbound event turns it from false to
true. -/
theorem loading_set_by_sync_and_create (socket : Option Socket) (sock : Socket) (s : State)
    (d u : Task) (i c a b : Val) :
    (useTasksEffect (some sock) s).1.loading = true ∧
    (createTask (some sock) s d c).1.loading = true ∧
    (createTask none s d c).1.loading = s.loading ∧
    (updateTask socket s i u c).1.loading = s.loading ∧
    (moveTask socket s i a b).1.loading = s.loading ∧
    (deleteTask socket s i c).1.loading = s.loading ∧
    (∀ e s', apply s e = some s' → s.loading = false → s'.loading = false) := by
  refine ⟨rfl, rfl, rfl, ?_, ?_, ?_, ?_⟩
  · cases socket <;> rfl
  · cases socket <;> rfl
  · cases socket <;> rfl
  · intro e s' h hl
    rcases loading_apply s s' e h with h1 | h1
    · exact h1
    · rw [h1, hl]

/-! ## Subscriptions -/

theorem removeFirst_append_cons (a : String × Handler) (ps table : List (String × Handler)) :
    ∃ table', table'.Perm table ∧ removeFirst a (table ++ a :: ps) = table' ++ ps := by
  induction table with
  | nil => exact ⟨[], List.Perm.refl _, by simp [removeFirst]⟩
  | cons q t ih =>
    by_cases hq : q = a
    · subst hq
      refine ⟨t ++ [q], ?_, by simp [removeFirst]⟩
      exact List.perm_append_singleton q t
    · obtain ⟨t', hperm, heq⟩ := ih
      refine ⟨q :: t', hperm.cons q, ?_⟩
      simp [removeFirst, hq, heq]

theorem listeners_off_all (ps table : List (String × Handler)) :
    (listeners (table ++ ps) (ps.map (fun p => SocketCall.off p.1 p.2))).Perm table := by
  induction ps generalizing table with
  | nil => simp [listeners]
  | cons a ps ih =>
    obtain ⟨table', hperm, heq⟩ := removeFirst_append_cons a ps table
    simp only [List.map_cons, listeners, Prod.mk.eta, heq]
    exact (ih table').trans hperm

/-- C20: the effect run with a socket registers one listener for each of the
five inbound events and nothing else; the cleanup deregisters exactly those
five `(event, handler)` pairs and makes no other call; so the subscription
table after effect and cleanup holds what it held before. -/
theorem subscriptions_symmetric (sock : Socket) (s : State)
    (table : List (String × Handler)) :
    registered (useTasksEffect (some sock) s).2
      = [("sync:tasks", .handleSyncTasks), ("task:created", .handleTaskCreated),
         ("task:updated", .handleTaskUpdated), ("task:moved", .handleTaskMoved),
         ("task:deleted", .handleTaskDeleted)] ∧
    deregistered (useTasksEffect (some sock) s).2 = [] ∧
    deregistered (useTasksCleanup (some sock)) = registered (useTasksEffect (some sock) s).2 ∧
    registered (useTasksCleanup (some sock)) = [] ∧
    emitted (useTasksCleanup (some sock)) = [] ∧
    (listeners table ((useTasksEffect (some sock) s).2 ++ useTasksCleanup (some sock))).Perm
      table := by
  refine ⟨rfl, rfl, rfl, rfl, rfl, ?_⟩
  have h := listeners_off_all
    [("sync:tasks", Handler.handleSyncTasks), ("task:created", .handleTaskCreated),
      ("task:updated", .handleTaskUpdated), ("task:moved", .handleTaskMoved),
      ("task:deleted", .handleTaskDeleted)] table
  simpa [useTasksEffect, useTasksCleanup, listeners] using h

/-! ## Commands and the connection state -/

/-- C16, the claim refuted: after `connect` and then `disconnect` the hook holds
`isConnected = false` and still hands the socket object to `useTasks`, whose
`createTask` emits its message. -/
theorem createTask_emits_while_disconnected :
    ((SocketHook.initial.mount ⟨1⟩).signals [.connect, .disconnect (.str "transport close")]).isConnected
      = false ∧
    emitted (createTask
      ((SocketHook.initial.mount ⟨1⟩).signals
        [.connect, .disconnect (.str "transport close")]).socket
      initialState [("title", .str "New Task")] (.str "To Do")).2
      = [("task:create",
          some [("task", .object [("title", .str "New Task")]), ("column", .val (.str "To Do"))])] := by
  decide

/-- C16, amended: whatever `isConnected` is, a command emits nothing when the
socket handed to `useTasks` is null, and emits exactly its one message when the
socket object exists. -/
theorem commands_depend_on_socket_only (h : SocketHook) (s : State) (d u : Task)
    (i c a b : Val) :
    (h.socket = none →
      emitted (createTask h.socket s d c).2 = [] ∧
      emitted (updateTask h.socket s i u c).2 = [] ∧
      emitted (moveTask h.socket s i a b).2 = [] ∧
      emitted (deleteTask h.socket s i c).2 = []) ∧
    (h.socket ≠ none →
      emitted (createTask h.socket s d c).2
        = [("task:create", some [("task", .object d), ("column", .val c)])] ∧
      emitted (updateTask h.socket s i u c).2
        = [("task:update",
            some [("taskId", .val i), ("updates", .object u), ("column", .val c)])] ∧
      emitted (moveTask h.socket s i a b).2
        = [("task:move",
            some [("taskId", .val i), ("fromColumn", .val a), ("toColumn", .val b)])] ∧
      emitted (deleteTask h.socket s i c).2
        = [("task:delete", some [("taskId", .val i), ("column", .val c)])]) := by
  constructor
  · intro hs
    rw [hs]
    exact ⟨rfl, rfl, rfl, rfl⟩
  · intro hs
    cases hsock : h.socket with
    | none => exact absurd hsock hs
    | some sock => exact ⟨rfl, rfl, rfl, rfl⟩

/-! ## Scenario -/

/-- C21: from the initial state, `sync:tasks` with `t1` declaring `To Do`, then
`task:created (t2, Done)`, then `task:moved (t1, To Do, In Progress)` give
exactly `To Do: []`, `In Progress: [t1]`, `Done: [t2]`; `task:updated` of `t1`
with `priority: High` then gives `t1` the priority `High` and leaves its title,
and `task:deleted (t2, Done)` then leaves `Done` empty. -/
theorem scenario_trace :
    run initialState
        [.syncTasks [[("id", .str "t1"), ("title", .str "First"), ("priority", .str "Low"),
            ("column", .str "To Do")]],
          .taskCreated [("id", .str "t2"), ("title", .str "Second")] (.str "Done"),
          .taskMoved (.str "t1") (.str "To Do") (.str "In Progress")]
      = some ⟨board []
          [[("id", .str "t1"), ("title", .str "First"), ("priority", .str "Low"),
            ("column", .str "To Do")]]
          [[("id", .str "t2"), ("title", .str "Second")]], false⟩ ∧
    (∃ s' t1', run ⟨board []
          [[("id", .str "t1"), ("title", .str "First"), ("priority", .str "Low"),
            ("column", .str "To Do")]]
          [[("id", .str "t2"), ("title", .str "Second")]], false⟩
        [.taskUpdated (.str "t1") [("priority", .str "High")] (.str "In Progress"),
          .taskDeleted (.str "t2") (.str "Done")] = some s' ∧
      s'.tasks = board [] [t1'] [] ∧ t1'.id = .str "t1" ∧
      t1'.get "priority" = .str "High" ∧ t1'.get "title" = .str "First") := by
  refine ⟨by decide, ⟨board []
    [[("id", .str "t1"), ("title", .str "First"), ("priority", .str "High"),
      ("column", .str "To Do")]] [], false⟩,
    [("id", .str "t1"), ("title", .str "First"), ("priority", .str "High"),
      ("column", .str "To Do")], by decide, rfl, by decide, by decide, by decide⟩

/-! ## The connection hook -/

/-- C22: `useSocket` starts with `isConnected = false` and `error = null`; from
every state `connect` gives `isConnected = true` and `error = null`,
`connect_error` gives `isConnected = false` and the error's message as `error`,
and `disconnect` gives `isConnected = false` and leaves `error` as it was. -/
theorem connection_transitions (h : SocketHook) (err : Task) (reason : Val) :
    (SocketHook.initial.isConnected = false ∧ SocketHook.initial.error = .null) ∧
    ((h.signal .connect).isConnected = true ∧ (h.signal .connect).error = .null) ∧
    ((h.signal (.connect_error err)).isConnected = false ∧
      (h.signal (.connect_error err)).error = err.get "message") ∧
    ((h.signal (.disconnect reason)).isConnected = false ∧
      (h.signal (.disconnect reason)).error = h.error) := by
  refine ⟨⟨rfl, rfl⟩, ⟨?_, ?_⟩, ⟨?_, ?_⟩, ⟨?_, ?_⟩⟩ <;>
    · unfold SocketHook.signal
      split
      · rename_i hsame
        simp only [SocketHook.set] at hsame
        simp [hsame.1, hsame.2]
      · rfl

theorem signal_keeps_invariant (h : SocketHook) (sig : Signal) (hsig : sig.isLifecycle = true)
    (hinv : h.isConnected = true → h.error = .null) :
    (h.signal sig).isConnected = true → (h.signal sig).error = .null := by
  unfold SocketHook.signal
  split
  · exact hinv
  · cases sig with
    | connect => intro _; rfl
    | disconnect reason => intro hc; simp [SocketHook.set] at hc
    | connect_error err => intro hc; simp [SocketHook.set] at hc
    | error err => simp [Signal.isLifecycle] at hsig

theorem signals_keep_invariant (sigs : List Signal) (h : SocketHook)
    (hsigs : ∀ sig ∈ sigs, sig.isLifecycle = true)
    (hinv : h.isConnected = true → h.error = .null) :
    (h.signals sigs).isConnected = true → (h.signals sigs).error = .null := by
  induction sigs generalizing h with
  | nil => exact hinv
  | cons sig sigs ih =>
    simp only [SocketHook.signals]
    apply ih
    · intro x hx
      exact hsigs x (List.mem_cons_of_mem sig hx)
    · exact signal_keeps_invariant h sig (hsigs sig (List.mem_cons_self sig sigs)) hinv

/-- C23, the claim refuted: after `connect` and then an `error` signal the hook
holds `isConnected = true` together with an error message. -/
theorem connected_and_error_together :
    ((SocketHook.initial.mount ⟨1⟩).signals
        [.connect, .error [("message", .str "boom")]]).isConnected = true ∧
    ((SocketHook.initial.mount ⟨1⟩).signals
        [.connect, .error [("message", .str "boom")]]).error = .str "boom" := by
  decide

/-- C23, amended: in every state reached from the initial state by a sequence
of the signals `connect`, `disconnect` and `connect_error`, `isConnected = true`
implies `error = null`; an `error` signal, from every state, leaves
`isConnected` as it is and sets `error` to the message of the error, or to
`Socket error occurred` when that message is falsy. -/
theorem connected_implies_no_error (sock : Socket) (sigs : List Signal) (h : SocketHook)
    (err : Task) :
    ((∀ sig ∈ sigs, sig.isLifecycle = true) →
      ((SocketHook.initial.mount sock).signals sigs).isConnected = true →
      ((SocketHook.initial.mount sock).signals sigs).error = .null) ∧
    (h.signal (.error err)).isConnected = h.isConnected ∧
    (h.signal (.error err)).error =
      (if (err.get "message").truthy then err.get "message"
        else .str "Socket error occurred") := by
  refine ⟨fun hsigs hconn => signals_keep_invariant sigs _ hsigs (fun hc => by
    simp [SocketHook.mount, SocketHook.initial] at hc) hconn, ?_, ?_⟩
  · unfold SocketHook.signal
    split
    · rfl
    · rfl
  · unfold SocketHook.signal
    split
    · rename_i hsame
      exact hsame.2.symm
    · rfl

theorem connected_implies_no_error_witness :
    ((SocketHook.initial.mount ⟨1⟩).signals
        [.connect_error [("message", .str "timeout")], .connect]).error = .null :=
  (connected_implies_no_error ⟨1⟩ [.connect_error [("message", .str "timeout")], .connect]
    SocketHook.initial [("message", .str "boom")]).1 (by decide) (by decide)

/-- C24, the claim refuted: the effect registers four listeners and the cleanup
deregisters none of them. -/
theorem cleanup_deregisters_nothing :
    onEvents (useSocketEffect SocketHook.initial ⟨1⟩).2
      = ["connect", "disconnect", "connect_error", "error"] ∧
    offEvents (useSocketCleanup (useSocketEffect SocketHook.initial ⟨1⟩).1).2 = [] := by
  decide

/-- C24, amended: with a socket in the ref, the cleanup of `useSocket` makes
exactly one call on it, `disconnect()`, and leaves the ref null; it deregisters
no listener. -/
theorem cleanup_disconnects_once (h : SocketHook) (sock : Socket)
    (href : h.socketRef = some sock) :
    (useSocketCleanup h).2 = [.disconnect] ∧
    (useSocketCleanup h).1.socketRef = none ∧
    offEvents (useSocketCleanup h).2 = [] ∧
    (useSocketCleanup h).1.isConnected = h.isConnected ∧
    (useSocketCleanup h).1.error = h.error := by
  unfold useSocketCleanup
  rw [href]
  exact ⟨rfl, rfl, rfl, rfl, rfl⟩

theorem cleanup_disconnects_once_witness :
    (useSocketCleanup ((SocketHook.initial.mount ⟨1⟩).signal .connect)).2 = [.disconnect] ∧
    (useSocketCleanup ((SocketHook.initial.mount ⟨1⟩).signal .connect)).1.socketRef = none ∧
    offEvents (useSocketCleanup ((SocketHook.initial.mount ⟨1⟩).signal .connect)).2 = [] ∧
    (useSocketCleanup ((SocketHook.initial.mount ⟨1⟩).signal .connect)).1.isConnected
      = ((SocketHook.initial.mount ⟨1⟩).signal .connect).isConnected ∧
    (useSocketCleanup ((SocketHook.initial.mount ⟨1⟩).signal .connect)).1.error
      = ((SocketHook.initial.mount ⟨1⟩).signal .connect).error :=
  cleanup_disconnects_once ((SocketHook.initial.mount ⟨1⟩).signal .connect) ⟨1⟩ (by decide)

/-- C25, the claim refuted: the one message the effect emits is named
`sync:tasks`, not `sync:request`. -/
theorem sync_request_not_emitted :
    emitted (useTasksEffect (some ⟨1⟩) initialState).2 = [("sync:tasks", none)] ∧
    ("sync:request", none) ∉ emitted (useTasksEffect (some ⟨1⟩) initialState).2 := by
  decide

/-- C25, amended: the full-sync request the effect sends is the message named
`sync:tasks`, sent with no payload. -/
theorem sync_request_is_sync_tasks (sock : Socket) (s : State) :
    emitted (useTasksEffect (some sock) s).2 = [("sync:tasks", none)] ∧
    (useTasksEffect (some sock) s).2.getLast? = some (.emit "sync:tasks" none) :=
  ⟨rfl, rfl⟩

/-! ## Create then delete -/

theorem setProp_setProp_board (a b c x y : List Task) (st : Stage) :
    setProp (setProp (board a b c) st.name x) st.name y = setProp (board a b c) st.name y := by
  cases st <;> simp [setProp_board]

/-- C30: `task:created (t, c)` followed by `task:deleted (t.id, c)`, for a
fixed stage `c` whose sequence holds no task of the id of `t`, gives back the
task mapping the two events were applied to. -/
theorem create_then_delete (a b c : List Task) (l : Bool) (t : Task) (st : Stage)
    (h : ∀ x ∈ seq (board a b c) st, x.id ≠ t.id) :
    ∃ s₁ s₂, handleTaskCreated ⟨board a b c, l⟩ t st.val = some s₁ ∧
      handleTaskDeleted s₁ t.id st.val = some s₂ ∧ s₂.tasks = board a b c := by
  obtain ⟨a', b', c', hb⟩ := setProp_isBoard a b c (seq (board a b c) st ++ [t]) st
  have hseq : seq (board a' b' c') st = seq (board a b c) st ++ [t] := by
    rw [← hb, seq_setProp_board, if_pos rfl]
  have hfil : (seq (board a b c) st ++ [t]).filter (fun task => decide (task.id ≠ t.id))
      = seq (board a b c) st := by
    rw [List.filter_append]
    have h1 : (seq (board a b c) st).filter (fun task => decide (task.id ≠ t.id))
        = seq (board a b c) st := by
      rw [List.filter_eq_self]
      intro x hx
      simpa using h x hx
    rw [h1]
    simp
  refine ⟨⟨board a' b' c', false⟩, _, ?_, handleTaskDeleted_board a' b' c' false t.id st, ?_⟩
  · simp only [handleTaskCreated, toPropertyKey_val, getProp_board, hb]
  · show setProp (board a' b' c') st.name _ = board a b c
    rw [hseq, hfil, ← hb, setProp_setProp_board, setProp_board_same]

theorem create_then_delete_witness :
    ∃ s₁ s₂, handleTaskCreated ⟨board [[("id", .str "t1")]] [] [], true⟩ [("id", .str "t2")]
        Stage.todo.val = some s₁ ∧
      handleTaskDeleted s₁ (Task.id [("id", .str "t2")]) Stage.todo.val = some s₂ ∧
      s₂.tasks = board [[("id", .str "t1")]] [] [] :=
  create_then_delete [[("id", .str "t1")]] [] [] true [("id", .str "t2")] .todo (by decide)

/-! ## Unique ids -/

theorem uniqueIds_board (a b c : List Task) :
    UniqueIds (board a b c) ↔
      NoDuplication (board a b c) ∧ ∀ st, ((seq (board a b c) st).map Task.id).Nodup := by
  unfold UniqueIds
  simp only [seq_board, List.map_append, List.nodup_append]
  constructor
  · rintro ⟨⟨ha, hb, hab⟩, hc, habc⟩
    refine ⟨?_, ?_⟩
    · rw [noDuplication_board]
      refine ⟨?_, ?_, ?_⟩
      · intro t ht t' ht' heq
        exact hab (List.mem_map_of_mem Task.id ht) (heq ▸ List.mem_map_of_mem Task.id ht')
      · intro t ht t' ht' heq
        exact habc (List.mem_append_left _ (List.mem_map_of_mem Task.id ht))
          (heq ▸ List.mem_map_of_mem Task.id ht')
      · intro t ht t' ht' heq
        exact habc (List.mem_append_right _ (List.mem_map_of_mem Task.id ht))
          (heq ▸ List.mem_map_of_mem Task.id ht')
    · intro st
      cases st
      · simpa [seq_board] using ha
      · simpa [seq_board] using hb
      · simpa [seq_board] using hc
  · rintro ⟨hnd, hst⟩
    rw [noDuplication_board] at hnd
    obtain ⟨hab, hac, hbc⟩ := hnd
    have ha := hst .todo
    have hb := hst .inProgress
    have hc := hst .done
    simp only [seq_board] at ha hb hc
    refine ⟨⟨ha, hb, ?_⟩, hc, ?_⟩
    · intro i hi hi'
      obtain ⟨t, ht, rfl⟩ := List.mem_map.mp hi
      obtain ⟨t', ht', heq⟩ := List.mem_map.mp hi'
      exact hab t ht t' ht' heq.symm
    · intro i hi hi'
      obtain ⟨t', ht', heq⟩ := List.mem_map.mp hi'
      rcases List.mem_append.mp hi with h1 | h1
      · obtain ⟨t, ht, rfl⟩ := List.mem_map.mp h1
        exact hac t ht t' ht' heq.symm
      · obtain ⟨t, ht, rfl⟩ := List.mem_map.mp h1
        exact hbc t ht t' ht' heq.symm

theorem getProp_board_inherited (a b c : List Task) (k : String)
    (hk : k ∈ objectPrototypeKeys) : getProp (board a b c) k = .inherited := by
  simp only [objectPrototypeKeys, List.mem_cons, List.mem_singleton, List.not_mem_nil,
    or_false] at hk
  rcases hk with rfl | rfl | rfl | rfl | rfl | rfl | rfl | rfl | rfl | rfl | rfl | rfl <;> rfl

theorem groupAll_some_clean (T : List Task) (a b c : List Task) (g : TaskMap)
    (h : groupAll (board a b c) T = some g) : ∀ t ∈ T, t.columnKey ∉ objectPrototypeKeys := by
  induction T generalizing a b c with
  | nil => intro t ht; simp at ht
  | cons x T ih =>
    have hx : x.columnKey ∉ objectPrototypeKeys := by
      intro hk
      have hin := getProp_board_inherited a b c x.columnKey hk
      simp only [groupAll, pushGrouped] at h
      change (match (match getProp (board a b c) x.columnKey with
        | .arr xs => some (setProp (board a b c) x.columnKey (xs ++ [x]))
        | .inherited => none
        | .undefined => some (board a b c)) with
        | some g => groupAll g T
        | none => none) = some g at h
      rw [hin] at h
      simp at h
    simp only [groupAll, pushGrouped_board a b c x hx] at h
    intro t ht
    rcases List.mem_cons.mp ht with rfl | ht
    · exact hx
    · exact ih _ _ _ h t ht

theorem handleSyncTasks_some_clean (s s' : State) (T : List Task)
    (h : handleSyncTasks s T = some s') : ∀ t ∈ T, t.columnKey ∉ objectPrototypeKeys := by
  simp only [handleSyncTasks] at h
  cases hg : groupAll (board [] [] []) T with
  | none =>
    rw [hg] at h
    simp at h
  | some g => exact groupAll_some_clean T [] [] [] g hg

theorem unique_sync (s : State) (T : List Task) (hT : (T.map Task.id).Nodup)
    (hclean : ∀ t ∈ T, t.columnKey ∉ objectPrototypeKeys) :
    ∃ s', handleSyncTasks s T = some s' ∧ UniqueIds s'.tasks := by
  refine ⟨_, handleSyncTasks_regroups s T hclean, ?_⟩
  rw [uniqueIds_board]
  constructor
  · obtain ⟨a', b', c', l', hres, hnd⟩ := step_sync s T hclean
      (fun t ht t' ht' heq => by rw [List.inj_on_of_nodup_map hT ht ht' heq])
    rw [handleSyncTasks_regroups s T hclean] at hres
    simp only [Option.some.injEq, State.mk.injEq] at hres
    rw [hres.1]
    exact hnd
  · intro st
    rw [seq_board_filter]
    exact hT.sublist (List.filter_sublist T |>.map Task.id)

theorem unique_deleted (a b c : List Task) (l : Bool) (i : Val) (st : Stage)
    (hU : UniqueIds (board a b c)) :
    ∃ s', handleTaskDeleted ⟨board a b c, l⟩ i st.val = some s' ∧ UniqueIds s'.tasks := by
  rw [uniqueIds_board] at hU
  obtain ⟨a', b', c', l', hres, hnd⟩ := step_deleted a b c l i st hU.1
  refine ⟨_, hres, ?_⟩
  rw [handleTaskDeleted_board] at hres
  simp only [Option.some.injEq, State.mk.injEq] at hres
  rw [uniqueIds_board]
  refine ⟨hnd, ?_⟩
  intro st'
  rw [← hres.1, seq_setProp_board]
  by_cases h : st' = st
  · subst h
    rw [if_pos rfl]
    exact (hU.2 st').sublist (List.filter_sublist _ |>.map Task.id)
  · rw [if_neg h]
    exact hU.2 st'

theorem unique_updated (a b c : List Task) (l : Bool) (i : Val) (u : Task) (st : Stage)
    (hU : UniqueIds (board a b c)) (hu : u.lookup "id" = none) :
    ∃ s', handleTaskUpdated ⟨board a b c, l⟩ i u st.val = some s' ∧ UniqueIds s'.tasks := by
  rw [uniqueIds_board] at hU
  obtain ⟨a', b', c', l', hres, hnd⟩ := step_updated a b c l i u st hU.1 hu
  refine ⟨_, hres, ?_⟩
  simp only [handleTaskUpdated, toPropertyKey_val, getProp_board, Option.some.injEq,
    State.mk.injEq] at hres
  rw [uniqueIds_board]
  refine ⟨hnd, ?_⟩
  intro st'
  rw [← hres.1, seq_setProp_board]
  by_cases h : st' = st
  · subst h
    rw [if_pos rfl, List.map_map]
    have hid : (Task.id ∘ fun task => if task.id = i then merge task u else task) = Task.id := by
      funext x
      simp only [Function.comp]
      by_cases hx : x.id = i
      · rw [if_pos hx]
        exact get_merge_of_not_defined x u "id" hu
      · rw [if_neg hx]
    rw [hid]
    exact hU.2 st'
  · rw [if_neg h]
    exact hU.2 st'

theorem unique_moved (a b c : List Task) (l : Bool) (i : Val) (A B : Stage) (hAB : A ≠ B)
    (hU : UniqueIds (board a b c)) :
    ∃ s', handleTaskMoved ⟨board a b c, l⟩ i A.val B.val = some s' ∧ UniqueIds s'.tasks := by
  have hU' := (uniqueIds_board a b c).mp hU
  obtain ⟨a', b', c', l', hres, hnd⟩ := step_moved a b c l i A B hU'.1
  refine ⟨_, hres, ?_⟩
  cases hfind : (seq (board a b c) A).find? (fun t => decide (t.id = i)) with
  | none =>
    simp only [handleTaskMoved, toPropertyKey_val, getProp_board, hfind, Option.some.injEq,
      State.mk.injEq] at hres
    rw [← hres.1]
    exact hU
  | some task =>
    have hmem : task ∈ seq (board a b c) A := List.mem_of_find?_eq_some hfind
    rw [handleTaskMoved_found a b c l i A B task hfind] at hres
    simp only [Option.some.injEq, State.mk.injEq] at hres
    rw [uniqueIds_board]
    refine ⟨hnd, ?_⟩
    intro st
    rw [← hres.1, seq_setProp_setProp_board]
    by_cases hB : st = B
    · subst hB
      rw [if_pos rfl, List.map_append, List.nodup_append]
      refine ⟨hU'.2 st, by simp, ?_⟩
      intro j hj hj'
      obtain ⟨t, ht, rfl⟩ := List.mem_map.mp hj
      simp only [List.map_cons, List.map_nil, List.mem_singleton] at hj'
      exact hU'.1 st A (Ne.symm hAB) t ht task hmem hj'
    · rw [if_neg hB]
      by_cases hA : st = A
      · subst hA
        rw [if_pos rfl]
        exact (hU'.2 st).sublist (List.filter_sublist _ |>.map Task.id)
      · rw [if_neg hA]
        exact hU'.2 st

/-- C29: from a state in which every task id occurs at most once over the three
stages, `task:deleted` for a fixed stage, `task:moved` between two different
fixed stages, `task:updated` (for a fixed stage) whose updates do not define
`id`, and `sync:tasks` with a list of pairwise distinct ids each lead to a state
with the same property; the sync handler gives that state whenever it gives
one, and it gives one when no task names an inherited property as its stage. -/
theorem uniqueIds_preserved (a b c : List Task) (l : Bool) (i : Val) (st A B : Stage)
    (u : Task) (allTasks : List Task)
    (hU : UniqueIds (board a b c)) (hAB : A ≠ B) (hu : u.lookup "id" = none)
    (hT : (allTasks.map Task.id).Nodup) :
    (∃ s', handleTaskDeleted ⟨board a b c, l⟩ i st.val = some s' ∧ UniqueIds s'.tasks) ∧
    (∃ s', handleTaskMoved ⟨board a b c, l⟩ i A.val B.val = some s' ∧ UniqueIds s'.tasks) ∧
    (∃ s', handleTaskUpdated ⟨board a b c, l⟩ i u st.val = some s' ∧ UniqueIds s'.tasks) ∧
    (∀ s', handleSyncTasks ⟨board a b c, l⟩ allTasks = some s' → UniqueIds s'.tasks) ∧
    ((∀ t ∈ allTasks, t.columnKey ∉ objectPrototypeKeys) →
      ∃ s', handleSyncTasks ⟨board a b c, l⟩ allTasks = some s' ∧ UniqueIds s'.tasks) := by
  refine ⟨unique_deleted a b c l i st hU, unique_moved a b c l i A B hAB hU,
    unique_updated a b c l i u st hU hu, ?_, unique_sync _ allTasks hT⟩
  intro s' hs'
  obtain ⟨s'', h1, h2⟩ := unique_sync ⟨board a b c, l⟩ allTasks hT
    (handleSyncTasks_some_clean _ s' allTasks hs')
  rw [hs'] at h1
  simp only [Option.some.injEq] at h1
  rw [h1]
  exact h2

theorem uniqueIds_preserved_witness :
    (∃ s', handleTaskDeleted ⟨board [[("id", .str "t1")]] [] [[("id", .str "t2")]], false⟩
        (.str "t2") Stage.done.val = some s' ∧ UniqueIds s'.tasks) ∧
    (∃ s', handleTaskMoved ⟨board [[("id", .str "t1")]] [] [[("id", .str "t2")]], false⟩
        (.str "t2") Stage.todo.val Stage.inProgress.val = some s' ∧ UniqueIds s'.tasks) ∧
    (∃ s', handleTaskUpdated ⟨board [[("id", .str "t1")]] [] [[("id", .str "t2")]], false⟩
        (.str "t2") [("priority", .str "High")] Stage.done.val = some s' ∧
      UniqueIds s'.tasks) ∧
    (∀ s', handleSyncTasks ⟨board [[("id", .str "t1")]] [] [[("id", .str "t2")]], false⟩
        [[("id", .str "t3"), ("column", .str "Done")], [("id", .str "t4")]] = some s' →
      UniqueIds s'.tasks) ∧
    ((∀ t ∈ [[("id", Val.str "t3"), ("column", Val.str "Done")], [("id", Val.str "t4")]],
        Task.columnKey t ∉ objectPrototypeKeys) →
      ∃ s', handleSyncTasks ⟨board [[("id", .str "t1")]] [] [[("id", .str "t2")]], false⟩
        [[("id", .str "t3"), ("column", .str "Done")], [("id", .str "t4")]] = some s' ∧
        UniqueIds s'.tasks) :=
  uniqueIds_preserved [[("id", .str "t1")]] [] [[("id", .str "t2")]] false (.str "t2")
    .done .todo .inProgress [("priority", .str "High")]
    [[("id", .str "t3"), ("column", .str "Done")], [("id", .str "t4")]]
    (by decide) (by decide) (by decide) (by decide)

/-! ## The task form -/

theorem validateForm_iff (formData : FormData) :
    validateForm formData = true ↔
      trim formData.title ≠ "" ∧ jsLength formData.title ≤ 100 ∧
        jsLength formData.description ≤ 500 := by
  unfold validateForm newErrors
  by_cases h1 : trim formData.title = "" <;>
    by_cases h2 : jsLength formData.title > 100 <;>
    by_cases h3 : jsLength formData.description > 500 <;>
    simp [h1, h2, h3, setProp, List.lookup] <;> omega

/-- C26: a submit of the form invokes `onSave` and then `onClose` exactly when
the trimmed title is not empty, the title has a length of at most 100 and the
description a length of at most 500 (lengths as JavaScript counts them);
otherwise it invokes neither. -/
theorem submit_iff_valid (formData : FormData) (task : Option Task) (column : Val)
    (env : SubmitEnv) :
    ((trim formData.title ≠ "" ∧ jsLength formData.title ≤ 100 ∧
        jsLength formData.description ≤ 500) ↔
      handleSubmit formData task column env
        = [.onSave (taskDataOf formData task env) column, .onClose]) ∧
    (¬ (trim formData.title ≠ "" ∧ jsLength formData.title ≤ 100 ∧
        jsLength formData.description ≤ 500) ↔
      handleSubmit formData task column env = []) := by
  rw [← validateForm_iff]
  unfold handleSubmit
  cases validateForm formData <;> simp

/-! ## Saving from the modal -/

theorem get_cardTask_column (task : Task) (c : String) :
    (cardTask task c).get "column" = .str c := by
  unfold cardTask
  rw [get_merge task _ (by simp) "column"]
  simp [List.lookup]

theorem get_cardTask_of_ne (task : Task) (c k : String) (hk : k ≠ "column") :
    (cardTask task c).get k = task.get k := by
  unfold cardTask
  apply get_merge_of_not_defined
  have hbeq : (k == "column") = false := by simpa using hk
  simp [List.lookup, hbeq]

theorem get_taskDataOf_id (formData : FormData) (task : Option Task) (env : SubmitEnv) :
    (taskDataOf formData task env).get "id" = fieldOr task "id" (.str env.generatedId) := by
  unfold taskDataOf
  rw [get_merge _ _ (by simp) "id"]
  simp [List.lookup]

theorem get_taskDataOf_createdAt (formData : FormData) (task : Option Task) (env : SubmitEnv) :
    (taskDataOf formData task env).get "createdAt"
      = fieldOr task "createdAt" (.str env.createdAtNow) := by
  unfold taskDataOf
  rw [get_merge _ _ (by simp) "createdAt"]
  simp [List.lookup]

theorem get_taskDataOf_form (formData : FormData) (task : Option Task) (env : SubmitEnv) :
    (taskDataOf formData task env).get "title" = .str formData.title ∧
    (taskDataOf formData task env).get "description" = .str formData.description ∧
    (taskDataOf formData task env).get "priority" = formData.priority ∧
    (taskDataOf formData task env).get "category" = formData.category ∧
    (taskDataOf formData task env).get "attachments" = formData.attachments := by
  unfold taskDataOf
  refine ⟨?_, ?_, ?_, ?_, ?_⟩ <;>
    · rw [get_merge _ _ (by simp)]
      simp [List.lookup, Task.get, FormData.toObj]

/-- C27, the claim refuted: for a task without `createdAt` the update sent on
edit carries the current time as `createdAt`, and for a task whose id is the
empty string `updateTask` is invoked with the generated id. -/
theorem edit_replaces_missing_fields :
    submitCommands
        (handleEditTask (cardTask [("id", .str "edit-task"), ("title", .str "Task to Edit")]
          "To Do"))
        ⟨"Updated via WebSocket", "Original", .str "Medium", .str "Feature", .obj 0⟩
        ⟨"task-1-abc", "2026-01-01T00:00:00.000Z", "2026-01-01T00:00:00.001Z"⟩
      = [.updateTask (.str "edit-task")
          [("title", .str "Updated via WebSocket"), ("description", .str "Original"),
            ("priority", .str "Medium"), ("category", .str "Feature"),
            ("attachments", .obj 0), ("id", .str "edit-task"),
            ("createdAt", .str "2026-01-01T00:00:00.000Z"),
            ("updatedAt", .str "2026-01-01T00:00:00.001Z")]
          (.str "To Do")] ∧
    Task.get [("id", .str "edit-task"), ("title", .str "Task to Edit")] "createdAt"
      = .undefined ∧
    submitCommands
        (handleEditTask (cardTask
          [("id", .str ""), ("title", .str "Task to Edit"), ("createdAt", .str "2025")] "To Do"))
        ⟨"Updated via WebSocket", "Original", .str "Medium", .str "Feature", .obj 0⟩
        ⟨"task-1-abc", "2026-01-01T00:00:00.000Z", "2026-01-01T00:00:00.001Z"⟩
      = [.updateTask (.str "task-1-abc")
          [("title", .str "Updated via WebSocket"), ("description", .str "Original"),
            ("priority", .str "Medium"), ("category", .str "Feature"),
            ("attachments", .obj 0), ("id", .str "task-1-abc"),
            ("createdAt", .str "2025"),
            ("updatedAt", .str "2026-01-01T00:00:00.001Z")]
          (.str "To Do")] := by
  decide

/-- C27, amended: for a task shown in the column titled `c` whose `id` and
`createdAt` are truthy, opening it for edit and submitting a valid form invokes
`updateTask` once, with the task's id, an updates object holding that id, the
task's `createdAt` and the form's title, and the column `c`, and does not invoke
`createTask`; with no task being edited, a valid submit invokes `createTask`
once with the form data and the column of the add button. -/
theorem edit_routes_to_update (task : Task) (c : String) (column : Val) (formData : FormData)
    (env : SubmitEnv) (hvalid : validateForm formData = true)
    (hid : (task.get "id").truthy = true) (hcreated : (task.get "createdAt").truthy = true) :
    (∃ updates, submitCommands (handleEditTask (cardTask task c)) formData env
        = [.updateTask (task.get "id") updates (.str c)] ∧
      updates.get "id" = task.get "id" ∧
      updates.get "createdAt" = task.get "createdAt" ∧
      updates.get "title" = .str formData.title) ∧
    (∃ taskData, submitCommands (handleAddTask column) formData env
        = [.createTask taskData column] ∧
      taskData.get "title" = .str formData.title ∧
      taskData.get "description" = .str formData.description ∧
      taskData.get "priority" = formData.priority ∧
      taskData.get "category" = formData.category ∧
      taskData.get "attachments" = formData.attachments ∧
      taskData.get "id" = .str env.generatedId) := by
  have hcid : (cardTask task c).get "id" = task.get "id" :=
    get_cardTask_of_ne task c "id" (by decide)
  have hccr : (cardTask task c).get "createdAt" = task.get "createdAt" :=
    get_cardTask_of_ne task c "createdAt" (by decide)
  have h1 : fieldOr (some (cardTask task c)) "id" (.str env.generatedId) = task.get "id" := by
    simp [fieldOr, hcid, hid]
  have h2 : fieldOr (some (cardTask task c)) "createdAt" (.str env.createdAtNow)
      = task.get "createdAt" := by
    simp [fieldOr, hccr, hcreated]
  constructor
  · refine ⟨taskDataOf formData (some (cardTask task c)) env, ?_, ?_, ?_, ?_⟩
    · simp [submitCommands, handleSubmit, hvalid, handleEditTask, handleSaveTask,
        get_taskDataOf_id, h1, get_cardTask_column]
    · rw [get_taskDataOf_id, h1]
    · rw [get_taskDataOf_createdAt, h2]
    · exact (get_taskDataOf_form formData _ env).1
  · obtain ⟨f1, f2, f3, f4, f5⟩ := get_taskDataOf_form formData none env
    refine ⟨taskDataOf formData none env, ?_, f1, f2, f3, f4, f5, ?_⟩
    · simp [submitCommands, handleSubmit, hvalid, handleAddTask, handleSaveTask]
    · rw [get_taskDataOf_id]
      rfl

theorem edit_routes_to_update_witness :
    (∃ updates, submitCommands
        (handleEditTask (cardTask
          [("id", .str "t1"), ("title", .str "Old"), ("createdAt", .str "2025")] "To Do"))
        ⟨"New title", "", .str "Low", .str "Feature", .obj 0⟩ ⟨"task-9", "2026a", "2026b"⟩
        = [.updateTask
            (Task.get [("id", .str "t1"), ("title", .str "Old"), ("createdAt", .str "2025")] "id")
            updates (.str "To Do")] ∧
      updates.get "id"
        = Task.get [("id", .str "t1"), ("title", .str "Old"), ("createdAt", .str "2025")] "id" ∧
      updates.get "createdAt"
        = Task.get [("id", .str "t1"), ("title", .str "Old"), ("createdAt", .str "2025")]
            "createdAt" ∧
      updates.get "title" = .str "New title") ∧
    (∃ taskData, submitCommands (handleAddTask (.str "Done"))
        ⟨"New title", "", .str "Low", .str "Feature", .obj 0⟩ ⟨"task-9", "2026a", "2026b"⟩
        = [.createTask taskData (.str "Done")] ∧
      taskData.get "title" = .str "New title" ∧
      taskData.get "description" = .str "" ∧
      taskData.get "priority" = .str "Low" ∧
      taskData.get "category" = .str "Feature" ∧
      taskData.get "attachments" = .obj 0 ∧
      taskData.get "id" = .str "task-9") :=
  edit_routes_to_update [("id", .str "t1"), ("title", .str "Old"), ("createdAt", .str "2025")]
    "To Do" (.str "Done") ⟨"New title", "", .str "Low", .str "Feature", .obj 0⟩
    ⟨"task-9", "2026a", "2026b"⟩ (by decide) (by decide) (by decide)

/-! ## The completion rate -/

theorem log2Aux_spec (fuel n : Nat) (h1 : 1 ≤ n) (hf : n ≤ fuel) :
    2 ^ log2Aux fuel n ≤ n ∧ n < 2 ^ (log2Aux fuel n + 1) := by
  induction fuel generalizing n with
  | zero => omega
  | succ fuel ih =>
    unfold log2Aux
    by_cases h2 : 2 ≤ n
    · rw [if_pos h2]
      obtain ⟨hlo, hhi⟩ := ih (n / 2) (by omega) (by omega)
      constructor
      · rw [pow_succ]
        omega
      · rw [pow_succ]
        omega
    · rw [if_neg h2]
      have : n = 1 := by omega
      subst this
      simp

theorem log2_spec (n : Nat) (h1 : 1 ≤ n) : 2 ^ log2 n ≤ n ∧ n < 2 ^ (log2 n + 1) :=
  log2Aux_spec n n h1 (Nat.le_refl n)

theorem roundHalfEven_le (n d M : Nat) (hd : 0 < d) (h : n ≤ M * d) :
    roundHalfEven n d ≤ M := by
  have hq : n / d ≤ M := Nat.div_le_of_le_mul (by rw [Nat.mul_comm]; exact h)
  have hmod := Nat.div_add_mod n d
  have hr : n % d < d := Nat.mod_lt n hd
  have hup : 0 < n % d → n / d + 1 ≤ M := by
    intro hpos
    by_contra hlt
    have hqM : n / d = M := by omega
    rw [hqM, Nat.mul_comm] at hmod
    omega
  unfold roundHalfEven
  split
  · exact hq
  · split
    · exact hup (by omega)
    · split
      · exact hq
      · exact hup (by omega)

theorem exponent_le (a b R : Nat) (ha : 1 ≤ a) (hb : 1 ≤ b) (hR : R ≤ 2 ^ 52)
    (h : a ≤ R * b) : exponent a b ≤ 52 := by
  obtain ⟨hlo, _⟩ := log2_spec a ha
  obtain ⟨_, hhi⟩ := log2_spec b hb
  have h1 : R * b < 2 ^ 52 * 2 ^ (log2 b + 1) :=
    Nat.lt_of_le_of_lt (Nat.mul_le_mul_right b hR)
      (Nat.mul_lt_mul_of_pos_left hhi (by norm_num))
  have h2 : 2 ^ log2 a < 2 ^ (52 + (log2 b + 1)) := by
    rw [pow_add]
    omega
  have h3 : log2 a < 52 + (log2 b + 1) := (Nat.pow_lt_pow_iff_right (by norm_num)).mp h2
  unfold exponent
  split <;> omega

theorem binary64_le (a b R : Nat) (hb : 1 ≤ b) (hR : R ≤ 2 ^ 52) (h : a ≤ R * b) :
    (binary64 a b).exp ≤ 0 ∧
      (binary64 a b).mant ≤ R * 2 ^ (-(binary64 a b).exp).toNat := by
  by_cases ha : a = 0
  · simp [binary64, ha]
  · have he := exponent_le a b R (by omega) hb hR h
    simp only [binary64, if_neg ha]
    generalize exponent a b = e at he
    have hz : (e - 52).toNat = 0 := by omega
    have hk : (-(e - 52)).toNat = (52 - e).toNat := by
      congr 1
      omega
    rw [hz, hk]
    refine ⟨by omega, roundHalfEven_le _ _ _ (by simpa using hb) ?_⟩
    simp only [pow_zero, Nat.mul_one]
    calc a * 2 ^ (52 - e).toNat ≤ R * b * 2 ^ (52 - e).toNat := Nat.mul_le_mul_right _ h
      _ = R * 2 ^ (52 - e).toNat * b := by ring

theorem toFixed1_le (x : Double) (hexp : x.exp ≤ 0)
    (hm : x.mant ≤ 100 * 2 ^ (-x.exp).toNat) : toFixed1 x ≤ 1000 := by
  unfold toFixed1
  have hz : x.exp.toNat = 0 := by omega
  rw [hz, pow_zero, Nat.mul_one]
  have hD : 0 < 2 ^ (-x.exp).toNat := pow_pos (by norm_num) _
  generalize 2 ^ (-x.exp).toNat = D at hm hD
  apply Nat.le_of_lt_succ
  rw [Nat.div_lt_iff_lt_mul (by omega)]
  omega

theorem times100_le (y : Double) (hexp : y.exp ≤ 0) (hm : y.mant ≤ 1 * 2 ^ (-y.exp).toNat) :
    (times100 y).exp ≤ 0 ∧ (times100 y).mant ≤ 100 * 2 ^ (-(times100 y).exp).toNat := by
  have hz : y.exp.toNat = 0 := by omega
  unfold times100
  apply binary64_le _ _ 100 (Nat.one_le_two_pow) (by norm_num)
  rw [hz, pow_zero, Nat.mul_one]
  calc y.mant * 100 ≤ 1 * 2 ^ (-y.exp).toNat * 100 := Nat.mul_le_mul_right _ hm
    _ = 100 * 2 ^ (-y.exp).toNat := by ring

theorem shown_le (done total : Nat) (ht : 1 ≤ total) (hd : done ≤ total) :
    toFixed1 (times100 (divide done total)) ≤ 1000 := by
  obtain ⟨hexp, hmant⟩ := binary64_le done total 1 ht (by norm_num) (by omega)
  obtain ⟨h1, h2⟩ := times100_le (divide done total) hexp hmant
  exact toFixed1_le _ h1 h2

theorem foldl_length_sum (cols : List (List Task)) (init : Nat) :
    cols.foldl (fun sum col => sum + col.length) init = init + (cols.map List.length).sum := by
  induction cols generalizing init with
  | nil => simp
  | cons col cols ih =>
    simp only [List.foldl_cons, List.map_cons, List.sum_cons]
    rw [ih]
    omega

theorem totalTasks_eq_sum (m : TaskMap) :
    totalTasks m = (m.map (fun p => p.2.length)).sum := by
  unfold totalTasks
  rw [foldl_length_sum, List.map_map]
  simp [Function.comp_def]

theorem doneTasks_le_totalTasks (m : TaskMap) : doneTasks m ≤ totalTasks m := by
  rw [totalTasks_eq_sum]
  unfold doneTasks
  induction m with
  | nil => simp
  | cons p m ih =>
    obtain ⟨k, col⟩ := p
    by_cases hk : "Done" = k
    · subst hk
      simp [List.lookup_cons]
    · have hbeq : ("Done" == k) = false := by simpa using hk
      simp only [List.lookup_cons, hbeq, List.map_cons, List.sum_cons]
      omega

/-- C28, the claim refuted: with 23 of 80 tasks done the rate shown is `28.7`,
the double `(23 / 80) * 100` lying just below `28.75`, while `100 * 23 / 80`
rounded to one decimal place is `28.8`. -/
theorem completionRate_below_exact :
    totalTasks (board (List.replicate 57 [("id", .str "a")]) []
      (List.replicate 23 [("id", .str "d")])) = 80 ∧
    doneTasks (board (List.replicate 57 [("id", .str "a")]) []
      (List.replicate 23 [("id", .str "d")])) = 23 ∧
    completionRate (board (List.replicate 57 [("id", .str "a")]) []
      (List.replicate 23 [("id", .str "d")])) = .fixed 287 ∧
    exactTenths 23 80 = 288 ∧ 1000 * 23 * 2 = (2 * 287 + 1) * 80 := by
  decide

/-- C28, amended: for every task mapping `totalTasks` is the sum of the lengths
of all its sequences; when it is 0 the rate shown is the number `0`; otherwise
the rate shown is the double `(doneTasks / totalTasks) * 100` written by
`toFixed(1)` with one decimal place, which lies between 0 and 100 (at most 1000
tenths); 2 done of 4 shows `50.0`. -/
theorem completionRate_spec (m : TaskMap) :
    totalTasks m = (m.map (fun p => p.2.length)).sum ∧
    (totalTasks m = 0 → completionRate m = .zero) ∧
    (0 < totalTasks m →
      completionRate m
        = .fixed (toFixed1 (times100 (divide (doneTasks m) (totalTasks m)))) ∧
      toFixed1 (times100 (divide (doneTasks m) (totalTasks m))) ≤ 1000) ∧
    completionRate (board [[("id", .str "1")]] [[("id", .str "2")]]
      [[("id", .str "3")], [("id", .str "4")]]) = .fixed 500 := by
  refine ⟨totalTasks_eq_sum m, ?_, ?_, by decide⟩
  · intro h0
    unfold completionRate
    rw [if_neg (by omega)]
  · intro hpos
    refine ⟨?_, shown_le _ _ hpos (doneTasks_le_totalTasks m)⟩
    unfold completionRate
    rw [if_pos hpos]

end Kanban
